import Mathlib

/-!
Verification of the `masters` schedule-processing package.

The definitions below are shallow embeddings of the Python source:
  * `src/masters/master.py`   — `XLMaster.format_list`, `XLMaster.validate_session`,
    `XLMaster.read_master`, `MasterFile.format_field`
  * `src/masters/__init__.py` — `Base.add_error`
  * `src/masters/reqsched.py` — `HTMLFormatter.format_field`
  * `src/masters/notes.py`    — `Notes.build_text_paragraph`, `Notes.split_comments`,
    `Notes.same_paragraph`, `Notes.clean_punctuation`

Strings are modelled as `List Char`; machine timestamps as integer seconds (UTC);
Python `float` durations as `ℚ` (all inputs used in theorems are dyadic rationals at
which binary floating point arithmetic is exact).  A function that can raise an
uncaught Python exception is modelled with an `Option` result, `none` standing for
the exception.  Recursions that Python performs on shrinking strings are written
with an explicit fuel argument (always instantiated with a sufficient bound) so
that every definition evaluates by kernel reduction.
-/

set_option maxRecDepth 8000

namespace Masters

open List

/-- The Python whitespace class used by `str.split()` / `str.strip()` and the
regex `\s` (restricted to the ASCII range, the only one appearing in the data). -/
def pyIsSpace (c : Char) : Bool :=
  c = ' ' || c = '\t' || c = '\n' || c = '\r' || c = '\x0b' || c = '\x0c'

/-- Python `str.strip()` with no arguments: remove leading and trailing whitespace. -/
def pyStrip (l : List Char) : List Char :=
  ((l.dropWhile pyIsSpace).reverse.dropWhile pyIsSpace).reverse

/-- Worker for `pySplit`; the fuel dominates the length of the list, so the
`fuel = 0` case is unreachable in `pySplit` itself. -/
def pySplitF : Nat → List Char → List (List Char)
  | 0, _ => []
  | _ + 1, [] => []
  | fuel + 1, c :: cs =>
    if pyIsSpace c then pySplitF fuel cs
    else (c :: cs.takeWhile (fun d => !pyIsSpace d)) ::
      pySplitF fuel (cs.dropWhile (fun d => !pyIsSpace d))

/-- Python `str.split()` with no arguments: split on runs of whitespace,
discarding empty pieces. -/
def pySplit (l : List Char) : List (List Char) :=
  pySplitF l.length l

/-- One insertion step of the stable sort `pySorted`. -/
def insertLe (le : α → α → Bool) (a : α) : List α → List α
  | [] => [a]
  | b :: l => if le a b then a :: b :: l else b :: insertLe le a l

/-- Model of Python's built-in stable sort `sorted`.  Python uses a stable merge
sort; a stable sort of a list under a total comparison is unique, and this
insertion formulation is stable (an element is inserted before all later
elements comparing equal to it), hence extensionally identical to the source. -/
def pySorted (le : α → α → Bool) : List α → List α
  | [] => []
  | a :: l => insertLe le a (pySorted le l)

/-- Lexicographic comparison of two character lists by code point, the order
Python's `sorted` uses on strings. -/
def lexLe : List Char → List Char → Bool
  | [], _ => true
  | _ :: _, [] => false
  | a :: as, b :: bs => if a < b then true else if b < a then false else lexLe as bs

/-- Python's `<` on strings: strict lexicographic comparison by code point. -/
def pyStrLt : List Char → List Char → Bool
  | [], [] => false
  | [], _ :: _ => true
  | _ :: _, [] => false
  | a :: as, b :: bs => if a < b then true else if b < a then false else pyStrLt as bs

/-- Worker for `chunkList` (fuel dominates the length of the list). -/
def chunkListF (n : Nat) : Nat → List Char → List (List Char)
  | 0, _ => []
  | fuel + 1, l => if l.length < n then [] else l.take n :: chunkListF n fuel (l.drop n)

/-- `re.findall('.' * n, s)` for a whitespace-free `s` (the only way the source
applies it): the consecutive `n`-character chunks of `s`, a final chunk shorter
than `n` being dropped.  For `n = 0` the empty regex matches once at each of the
`length + 1` positions. -/
def chunkList (n : Nat) (l : List Char) : List (List Char) :=
  if n = 0 then List.replicate (l.length + 1) [] else chunkListF n l.length l

/-- The inner helper `clean` of `XLMaster.format_list` (master.py:260-261):
`''.join(sorted(list(re.findall('.' * n, item.strip()))))`. -/
def clean (n : Nat) (item : List Char) : List Char :=
  (pySorted lexLe (chunkList n (pyStrip item))).flatten

/-- `XLMaster.format_list` (master.py:251-264).  `none` models the uncaught
`IndexError` raised by `stations[0]` on an empty list or by `groups[0]` when the
first token is blank and no group exists. -/
def format_list (stations : List (List Char)) (n : Nat) : Option (List Char) :=
  let groups := (pySplit ((stations.map (fun sta => sta.take n)).flatten)).map (clean n)
  match stations with
  | [] => none
  | s0 :: _ =>
    if pyStrip s0 = [] then
      match groups with
      | [] => none
      | g0 :: _ => some ([' ', '-'] ++ g0)
    else some (List.intercalate [' ', '-'] groups)

/-- The grouping algorithm exactly as claim C1 words it: each cluster has its
individual *characters* sorted (rather than its `n`-character chunks). -/
def format_list_claim (stations : List (List Char)) (n : Nat) : Option (List Char) :=
  let groups := (pySplit ((stations.map (fun sta => sta.take n)).flatten)).map
    (fun cluster => pySorted (fun a b : Char => a ≤ b) cluster)
  match stations with
  | [] => none
  | s0 :: _ =>
    if pyStrip s0 = [] then
      match groups with
      | [] => none
      | g0 :: _ => some ([' ', '-'] ++ g0)
    else some (List.intercalate [' ', '-'] groups)

/-- The spec's grouping description, amended to sort the `n`-character chunks of
each cluster: truncate every token to its first `n` characters, concatenate,
split the concatenation on blank runs into clusters, sort the `n`-character
chunks of each cluster lexicographically, join the clusters with `" -"`; when
the very first token is entirely blank the output is `" -"` followed by the
first cluster only (undefined when no cluster exists). -/
def format_list_spec (stations : List (List Char)) (n : Nat) : Option (List Char) :=
  let truncated := stations.map (fun sta => sta.take n)
  let clusters := pySplit truncated.flatten
  let sortedClusters := clusters.map (fun cl => (pySorted lexLe (chunkList n cl)).flatten)
  match stations with
  | [] => none
  | s0 :: _ =>
    if pyStrip s0 = [] then
      match sortedClusters with
      | [] => none
      | g0 :: _ => some ([' ', '-'] ++ g0)
    else some (List.intercalate [' ', '-'] sortedClusters)

/-! Basic facts about the string primitives. -/

theorem dropWhile_eq_self_of_not {p : Char → Bool} {l : List Char}
    (h : ∀ c ∈ l, ¬ p c) : l.dropWhile p = l := by
  cases l with
  | nil => rfl
  | cons c cs =>
    rw [List.dropWhile_cons]
    simp [h c (List.mem_cons_self c cs)]

theorem pyStrip_eq_self {l : List Char} (h : ∀ c ∈ l, ¬ pyIsSpace c) :
    pyStrip l = l := by
  unfold pyStrip
  rw [dropWhile_eq_self_of_not h]
  rw [dropWhile_eq_self_of_not (by simpa using h)]
  simp

theorem pyStrip_eq_nil {l : List Char} (h : pyStrip l = []) :
    ∀ c ∈ l, pyIsSpace c := by
  unfold pyStrip at h
  rw [List.reverse_eq_nil_iff, List.dropWhile_eq_nil_iff] at h
  simp only [List.mem_reverse] at h
  intro c hc
  rcases List.mem_append.mp
    ((List.takeWhile_append_dropWhile (p := pyIsSpace) (l := l)) ▸ hc) with h1 | h1
  · exact List.mem_takeWhile_imp h1
  · exact h c h1

/-- Every piece produced by `pySplitF` is free of whitespace characters. -/
theorem pySplitF_no_space :
    ∀ (fuel : Nat) (l : List Char), ∀ w ∈ pySplitF fuel l, ∀ c ∈ w, ¬ pyIsSpace c := by
  intro fuel
  induction fuel with
  | zero => intro l w hw; simp [pySplitF] at hw
  | succ fuel ih =>
    intro l w hw
    cases l with
    | nil => simp [pySplitF] at hw
    | cons c cs =>
      rw [pySplitF] at hw
      by_cases h : pyIsSpace c
      · rw [if_pos h] at hw
        exact ih cs w hw
      · rw [if_neg h] at hw
        rcases List.mem_cons.mp hw with rfl | hw
        · intro d hd
          rcases List.mem_cons.mp hd with rfl | hd
          · simpa using h
          · have := List.mem_takeWhile_imp hd
            simpa using this
        · exact ih _ w hw

theorem pySplit_no_space {l : List Char} :
    ∀ w ∈ pySplit l, ∀ c ∈ w, ¬ pyIsSpace c :=
  pySplitF_no_space l.length l

/-- `pySplitF` of an all-whitespace list is empty (for any fuel). -/
theorem pySplitF_all_space :
    ∀ (fuel : Nat) (l : List Char), (∀ c ∈ l, pyIsSpace c) → pySplitF fuel l = [] := by
  intro fuel
  induction fuel with
  | zero => intro l _; rfl
  | succ fuel ih =>
    intro l h
    cases l with
    | nil => rfl
    | cons c cs =>
      have hc := h c (List.mem_cons_self c cs)
      rw [pySplitF, if_pos hc]
      exact ih cs (fun d hd => h d (List.mem_cons_of_mem c hd))

theorem pySplit_all_space {l : List Char} (h : ∀ c ∈ l, pyIsSpace c) :
    pySplit l = [] :=
  pySplitF_all_space l.length l h

/-- C1, amended statement: `format_list` agrees everywhere with the spec's
grouping description once "sort the characters of each cluster" is amended to
"sort the `n`-character chunks of each cluster". -/
theorem format_list_eq_spec (stations : List (List Char)) (n : Nat) :
    format_list stations n = format_list_spec stations n := by
  have hmap :
      (pySplit ((stations.map (fun sta => sta.take n)).flatten)).map (clean n) =
      (pySplit ((stations.map (fun sta => sta.take n)).flatten)).map
        (fun cl => (pySorted lexLe (chunkList n cl)).flatten) := by
    apply List.map_congr_left
    intro cl hcl
    unfold clean
    rw [pyStrip_eq_self (pySplit_no_space cl hcl)]
  unfold format_list format_list_spec
  cases stations with
  | nil => rfl
  | cons s0 rest =>
    simp only [hmap]

/-- C10: on a list whose tokens are all blank, `format_list` raises an
`IndexError` (modelled by `none`): the split yields no cluster while the
blank-first branch (or `stations[0]` itself, for an empty list) indexes one. -/
theorem format_list_all_blank (stations : List (List Char)) (n : Nat)
    (h : ∀ s ∈ stations, pyStrip s = []) :
    format_list stations n = none := by
  unfold format_list
  cases stations with
  | nil => rfl
  | cons s0 rest =>
    have hsplit : pySplit (((s0 :: rest).map (fun sta => sta.take n)).flatten) = [] := by
      apply pySplit_all_space
      intro c hc
      rw [List.mem_flatten] at hc
      obtain ⟨w, hw, hcw⟩ := hc
      rw [List.mem_map] at hw
      obtain ⟨sta, hsta, rfl⟩ := hw
      exact pyStrip_eq_nil (h sta hsta) c (List.mem_of_mem_take hcw)
    rw [hsplit]
    simp [h s0 (List.mem_cons_self s0 rest)]

/-- Witness for `format_list_all_blank` at a concrete blank token list. -/
theorem format_list_all_blank_witness :
    format_list [[' ', ' '], [' ']] 2 = none :=
  format_list_all_blank [[' ', ' '], [' ']] 2 (by decide)

/-- C1, counterexample to the claim as stated: with tokens `["BA", "AB"]` and
`n = 2` the code sorts the two-character chunks, producing `"ABBA"`, while
sorting the characters of the cluster would produce `"AABB"`. -/
theorem format_list_claim_counterexample :
    format_list [['B', 'A'], ['A', 'B']] 2 = some ['A', 'B', 'B', 'A'] ∧
    format_list_claim [['B', 'A'], ['A', 'B']] 2 = some ['A', 'A', 'B', 'B'] ∧
    format_list [['B', 'A'], ['A', 'B']] 2 ≠ format_list_claim [['B', 'A'], ['A', 'B']] 2 := by
  refine ⟨?_, ?_, ?_⟩ <;> decide

/-! ### Delay derivation (master.py:368-377) -/

/-- The DELAY field of a session: a day count, or the blank string written for
files that predate the delay feature. -/
inductive Delay where
  | blank
  | days (n : Int)
deriving DecidableEq, Repr

/-- The DELAY computation of `XLMaster.read_master` (master.py:370-377), with
instants as integer seconds in UTC: `year` is the digit string taken from the
file name and compared to `'2003'` as a Python string; `end = start + duration`
seconds; `timedelta.days` is floor division of the difference by 86400. -/
def compute_delay (year : List Char) (start dur : Int) (status : Option Int) (now : Int) :
    Delay :=
  if pyStrLt year "2003".data then Delay.blank
  else
    match status with
    | some s => Delay.days ((s - (start + dur)).fdiv 86400)
    | none => Delay.days (min ((now - (start + dur)).fdiv 86400) 9999)

/-- C2, counterexample to the claim as stated: with `start = 2024-01-01T00:00Z`
(epoch 1704067200), `duration = 3600 s` and `status = 2024-01-10T00:00Z` (epoch
1704844800), the code computes `days(status - end) = days(8 d 23 h) = 8`, not
the 5 days the claim asserts. -/
theorem compute_delay_counterexample :
    compute_delay "2024".data 1704067200 3600 (some 1704844800) 1704412800 = Delay.days 8 ∧
    Delay.days 8 ≠ Delay.days 5 := by
  refine ⟨?_, ?_⟩ <;> decide

/-- C2, amended: for a file year not below `"2003"`, a timestamp STATUS gives
`delay = days(status - end)` independently of the current time, an absent
STATUS gives `delay = min(days(now - end), 9999)`; the claim's first instance
(no status, now = 2024-01-05T00:00Z) gives 3 days, its second instance (status
= 2024-01-10T00:00Z) gives 8 days (not 5) regardless of `now`; files with year
below `"2003"` get a blank DELAY. -/
theorem compute_delay_correct :
    (∀ (year : List Char), pyStrLt year "2003".data = false → ∀ (start dur s now : Int),
        compute_delay year start dur (some s) now =
          Delay.days ((s - (start + dur)).fdiv 86400)) ∧
    (∀ (year : List Char), pyStrLt year "2003".data = false → ∀ (start dur now : Int),
        compute_delay year start dur none now =
          Delay.days (min ((now - (start + dur)).fdiv 86400) 9999)) ∧
    (∀ now : Int, compute_delay "2024".data 1704067200 3600 (some 1704844800) now = Delay.days 8) ∧
    compute_delay "2024".data 1704067200 3600 none 1704412800 = Delay.days 3 ∧
    (∀ (year : List Char), pyStrLt year "2003".data = true →
      ∀ (start dur now : Int) (status : Option Int),
        compute_delay year start dur status now = Delay.blank) := by
  refine ⟨?_, ?_, ?_, ?_, ?_⟩
  · intro year hy start dur s now
    simp [compute_delay, hy]
  · intro year hy start dur now
    simp [compute_delay, hy]
  · intro now
    have h2024 : pyStrLt "2024".data "2003".data = false := by decide
    simp only [compute_delay, h2024, Bool.false_eq_true, if_false]
    decide
  · decide
  · intro year hy start dur now status
    cases status <;> simp [compute_delay, hy]

/-- Witness for `compute_delay_correct`, discharging its hypotheses at the
concrete years `"2024"` and `"1999"`. -/
theorem compute_delay_correct_witness :
    compute_delay "2024".data 1704067200 3600 (some 1704844800) 0 =
      Delay.days (((1704844800 : Int) - (1704067200 + 3600)).fdiv 86400) ∧
    compute_delay "1999".data 5 7 none 11 = Delay.blank :=
  ⟨compute_delay_correct.1 "2024".data (by decide) 1704067200 3600 1704844800 0,
   compute_delay_correct.2.2.2.2 "1999".data (by decide) 5 7 11 none⟩

/-! ### Duration formatting (master.py:110-113) -/

/-- `'{:wd}'.format(n)`: decimal rendering, right-justified with blanks. -/
def padLeft (w : Nat) (s : String) : String :=
  String.mk (List.replicate (w - s.length) ' ') ++ s

/-- `'{:0wd}'.format(n)` for `n ≥ 0`: decimal rendering, zero-padded. -/
def zfill (w : Nat) (s : String) : String :=
  String.mk (List.replicate (w - s.length) '0') ++ s

/-- The `DUR` / `'%H:%M'` branch of `MasterFile.format_field` (master.py:110-113):
`divmod(value, 1)` splits a positive value into `hours = ⌊value⌋` and
`remainder = value - ⌊value⌋`; `int(remainder * 60)` truncates toward zero,
which on the nonnegative `remainder * 60` is the floor.  A value that is zero
or negative renders as five blanks. -/
def format_dur (value : ℚ) : String :=
  if 0 < value then
    let hours : Int := ⌊value⌋
    let remainder : ℚ := value - hours
    padLeft 2 (toString hours) ++ ":" ++ zfill 2 (toString ⌊remainder * 60⌋)
  else "     "

/-- The duration rule exactly as claim C4 words it: `minutes = round((v mod 1) * 60)`
(rounding to the nearest integer) instead of the code's truncation. -/
def format_dur_claim (value : ℚ) : String :=
  if 0 < value then
    padLeft 2 (toString (⌊value⌋ : Int)) ++ ":" ++
      zfill 2 (toString (round ((value - ⌊value⌋) * 60)))
  else "     "

/-- The duration rule amended to the code's behaviour: `minutes = ⌊(v mod 1) * 60⌋`
(`v mod 1` being the fractional part `Int.fract v`). -/
def format_dur_spec (value : ℚ) : String :=
  if 0 < value then
    padLeft 2 (toString (⌊value⌋ : Int)) ++ ":" ++ zfill 2 (toString ⌊Int.fract value * 60⌋)
  else "     "

/-- C4, counterexample to the claim as stated: at `v = 1 + 127/128` hours
(126.5625 fractional minutes — exactly representable in binary floating point,
so the `ℚ` model matches the source's float arithmetic here) the code truncates
`59.53125` minutes to `59` and renders `" 1:59"`, while the claim's rounding
yields `60` and would render `" 1:60"`. -/
theorem format_dur_eval {v : ℚ} {h m : Int} (hpos : 0 < v) (hh : ⌊v⌋ = h)
    (hm : ⌊(v - (h : ℚ)) * 60⌋ = m) :
    format_dur v = padLeft 2 (toString h) ++ ":" ++ zfill 2 (toString m) := by
  unfold format_dur
  rw [if_pos hpos, hh]
  show padLeft 2 (toString h) ++ ":" ++ zfill 2 (toString ⌊(v - (h : ℚ)) * 60⌋) = _
  rw [hm]

theorem format_dur_claim_counterexample :
    format_dur (255 / 128) = " 1:59" ∧
    format_dur_claim (255 / 128) = " 1:60" ∧
    format_dur (255 / 128) ≠ format_dur_claim (255 / 128) := by
  have h1 : format_dur (255 / 128) = " 1:59" := by
    rw [format_dur_eval (h := 1) (m := 59) (by norm_num) (by norm_num) (by norm_num)]
    decide
  have h2 : format_dur_claim (255 / 128) = " 1:60" := by
    unfold format_dur_claim
    rw [if_pos (by norm_num : (0:ℚ) < 255 / 128)]
    rw [show ⌊(255 / 128 : ℚ)⌋ = 1 by norm_num]
    rw [show round (((255 / 128 : ℚ) - ((1 : ℤ) : ℚ)) * 60) = 60 by rw [round_eq]; norm_num]
    decide
  exact ⟨h1, h2, by rw [h1, h2]; decide⟩

/-- C4, amended: zero or negative durations render as five blanks; a positive
duration splits into `hours = ⌊v⌋` and `minutes = ⌊(v mod 1) * 60⌋` (truncation,
not rounding) rendered `" H:MM"`; in particular `0.5 → " 0:30"` and
`1.25 → " 1:15"`. -/
theorem format_dur_correct :
    (∀ v : ℚ, format_dur v = format_dur_spec v) ∧
    format_dur (1 / 2) = " 0:30" ∧
    format_dur (5 / 4) = " 1:15" ∧
    (∀ v : ℚ, v ≤ 0 → format_dur v = "     ") := by
  refine ⟨?_, ?_, ?_, ?_⟩
  · intro v
    unfold format_dur format_dur_spec
    rw [Int.fract]
  · rw [format_dur_eval (h := 0) (m := 30) (by norm_num) (by norm_num) (by norm_num)]
    decide
  · rw [format_dur_eval (h := 1) (m := 15) (by norm_num) (by norm_num) (by norm_num)]
    decide
  · intro v hv
    rw [format_dur, if_neg (by simpa using hv)]

/-- Witness for `format_dur_correct`, discharging its nonpositivity hypothesis
at `v = -1/2` and evaluating the general equality at `v = 1/2`. -/
theorem format_dur_correct_witness :
    format_dur (-1 / 2) = "     " ∧ format_dur (1 / 2) = format_dur_spec (1 / 2) :=
  ⟨format_dur_correct.2.2.2 (-1 / 2) (by norm_num), format_dur_correct.1 (1 / 2)⟩

/-! ### Dates, cell values and sessions -/

/-- A calendar date (`datetime.date`): year, month, day. -/
structure YMD where
  year : Int
  month : Nat
  day : Nat
deriving DecidableEq, Repr

/-- A naive `datetime.datetime`: a date plus the seconds elapsed in the day. -/
structure DT where
  date : YMD
  secs : Nat
deriving DecidableEq, Repr

/-- Python's `<=` on naive datetimes: lexicographic on (year, month, day, time),
which is how `datetime.datetime` comparison is defined. -/
def dtLe (a b : DT) : Bool :=
  decide (a.date.year < b.date.year ∨ (a.date.year = b.date.year ∧
    (a.date.month < b.date.month ∨ (a.date.month = b.date.month ∧
      (a.date.day < b.date.day ∨ (a.date.day = b.date.day ∧ a.secs ≤ b.secs))))))

/-- Python's `<=` on `datetime.date` values: lexicographic on (year, month, day). -/
def ymdLe (a b : YMD) : Bool :=
  decide (a.year < b.year ∨ (a.year = b.year ∧
    (a.month < b.month ∨ (a.month = b.month ∧ a.day ≤ b.day))))

theorem dtLe_total (a b : DT) : dtLe a b = true ∨ dtLe b a = true := by
  simp only [dtLe, decide_eq_true_eq]
  omega

theorem dtLe_trans {a b c : DT} (h1 : dtLe a b = true) (h2 : dtLe b c = true) :
    dtLe a c = true := by
  simp only [dtLe, decide_eq_true_eq] at h1 h2 ⊢
  omega

theorem dtLe_refl (a : DT) : dtLe a a = true := by
  simp [dtLe]

/-- A value held by a spreadsheet cell / session field, as openpyxl delivers it. -/
inductive PyVal where
  | none
  | str (s : List Char)
  | int (n : Int)
  | float (q : ℚ)
  | dt (t : DT)
  | date (d : YMD)
  | time (secs : Nat)
deriving DecidableEq, Repr

/-- Python truthiness of a cell value (`if not ses.get('DATE', None)`,
`if not ses['STATUS']`).  All `datetime.time` values are truthy since
Python 3.5. -/
def pyTruthy : PyVal → Bool
  | .none => false
  | .str s => !s.isEmpty
  | .int n => n != 0
  | .float q => q != 0
  | .dt _ => true
  | .date _ => true
  | .time _ => true

/-- One session record: the dict built per data row by `read_master`.  The
fixed, specially-treated keys are fields; the remaining string-valued columns
(SKED, CORR, SUBM, PI, ...) live in `extra`.  A field the row has not set yet is
`Option.none`. -/
structure Session where
  row : Nat
  CODE : List Char
  DATE : PyVal
  TIME : PyVal
  STATUS : PyVal
  DUR : PyVal
  START : Option DT
  DOY : Option Int
  EXPERIMENT : Option (Option (List Char))
  master : Option (List Char)
  media : Option (List Char)
  DELAY : Option Delay
  extra : List (List Char × List Char)
deriving DecidableEq, Repr

/-! ### Stable sorting (`sorted(sessions, key=itemgetter('START'))`,
master.py:381-382 and 433-434) -/

theorem mem_insertLe {le : α → α → Bool} {a x : α} {l : List α} :
    x ∈ insertLe le a l ↔ x = a ∨ x ∈ l := by
  induction l with
  | nil => simp [insertLe]
  | cons b m ih =>
    rw [insertLe]
    by_cases h : le a b <;> simp [h, ih]
    all_goals tauto

theorem mem_pySorted {le : α → α → Bool} {x : α} {l : List α} :
    x ∈ pySorted le l ↔ x ∈ l := by
  induction l with
  | nil => simp [pySorted]
  | cons b m ih => rw [pySorted]; simp [mem_insertLe, ih]

theorem sublist_insertLe (le : α → α → Bool) (a : α) (l : List α) :
    l <+ insertLe le a l := by
  induction l with
  | nil => simp [insertLe]
  | cons b m ih =>
    rw [insertLe]
    by_cases h : le a b
    · rw [if_pos h]
      exact List.sublist_cons_self a (b :: m)
    · rw [if_neg h]
      exact List.Sublist.cons₂ b ih

theorem insertLe_perm (le : α → α → Bool) (a : α) (l : List α) :
    insertLe le a l ~ a :: l := by
  induction l with
  | nil => simp [insertLe]
  | cons b m ih =>
    rw [insertLe]
    by_cases h : le a b
    · rw [if_pos h]
    · rw [if_neg h]
      exact (ih.cons b).trans (List.Perm.swap a b m)

theorem pySorted_perm (le : α → α → Bool) (l : List α) : pySorted le l ~ l := by
  induction l with
  | nil => rfl
  | cons b m ih => exact (insertLe_perm le b (pySorted le m)).trans (ih.cons b)

/-- `insertLe` splits the list at the first element `a` compares `le` to. -/
theorem insertLe_decomp (le : α → α → Bool) (a : α) (l : List α) :
    ∃ p s, l = p ++ s ∧ insertLe le a l = p ++ a :: s ∧ ∀ c ∈ p, le a c = false := by
  induction l with
  | nil => exact ⟨[], [], rfl, rfl, by simp⟩
  | cons b m ih =>
    by_cases h : le a b
    · refine ⟨[], b :: m, rfl, ?_, by simp⟩
      rw [insertLe, if_pos h]
      rfl
    · obtain ⟨p, s, h1, h2, h3⟩ := ih
      refine ⟨b :: p, s, by simp [h1], ?_, ?_⟩
      · rw [insertLe, if_neg h, h2]
        rfl
      · intro c hc
        rcases List.mem_cons.mp hc with rfl | hc
        · simpa using h
        · exact h3 c hc

theorem pairwise_insertLe {le : α → α → Bool}
    (total : ∀ x y, le x y = true ∨ le y x = true)
    (trans : ∀ {x y z}, le x y = true → le y z = true → le x z = true)
    {a : α} {l : List α} (h : l.Pairwise (le · · = true)) :
    (insertLe le a l).Pairwise (le · · = true) := by
  induction l with
  | nil => simp [insertLe]
  | cons b m ih =>
    rw [insertLe]
    by_cases hab : le a b
    · rw [if_pos hab]
      refine List.Pairwise.cons ?_ h
      intro x hx
      rcases List.mem_cons.mp hx with rfl | hx
      · exact hab
      · exact trans hab (List.rel_of_pairwise_cons h hx)
    · rw [if_neg hab]
      have hba : le b a = true := (total a b).resolve_left hab
      refine List.Pairwise.cons ?_ (ih h.tail)
      intro x hx
      rcases mem_insertLe.mp hx with rfl | hx
      · exact hba
      · exact List.rel_of_pairwise_cons h hx

theorem pairwise_pySorted {le : α → α → Bool}
    (total : ∀ x y, le x y = true ∨ le y x = true)
    (trans : ∀ {x y z}, le x y = true → le y z = true → le x z = true)
    (l : List α) : (pySorted le l).Pairwise (le · · = true) := by
  induction l with
  | nil => simp [pySorted]
  | cons b m ih => exact pairwise_insertLe total trans ih

/-- Stability of `pySorted`: a pair already in `le` order keeps its relative
order through the sort. -/
theorem pair_sublist_pySorted {le : α → α → Bool} {a b : α} (hab : le a b = true) :
    ∀ {l : List α}, [a, b] <+ l → [a, b] <+ pySorted le l := by
  intro l
  induction l with
  | nil => intro h; cases h
  | cons x m ih =>
    intro h
    rw [pySorted]
    cases h with
    | cons _ h' => exact (ih h').trans (sublist_insertLe le x (pySorted le m))
    | cons₂ _ h' =>
      have hb : b ∈ pySorted le m := mem_pySorted.mpr (List.singleton_sublist.mp h')
      obtain ⟨p, s, h1, h2, h3⟩ := insertLe_decomp le a (pySorted le m)
      rw [h2]
      have hbs : b ∈ s := by
        rcases List.mem_append.mp (h1 ▸ hb) with hbp | hbs
        · exact absurd hab (by simp [h3 b hbp])
        · exact hbs
      calc [a, b] <+ a :: s := List.Sublist.cons₂ a (List.singleton_sublist.mpr hbs)
        _ <+ p ++ a :: s := List.sublist_append_right p (a :: s)

/-- The sort key `itemgetter('START')`; looking up a missing START raises, which
`sort_sessions` models separately, so the default value is never observed. -/
def startKey (s : Session) : DT := s.START.getD ⟨⟨0, 0, 0⟩, 0⟩

/-- `self.sessions = sorted(sessions, key=itemgetter('START'))`
(master.py:381-382, and identically master.py:433-434): Python's `sorted` is a
stable sort; `none` models the `KeyError` raised when some session never
derived a START. -/
def sort_sessions (l : List Session) : Option (List Session) :=
  if l.all (fun s => s.START.isSome) then
    some (pySorted (fun a b => dtLe (startKey a) (startKey b)) l)
  else none

/-- C5: whenever the final sort succeeds, the output is non-decreasing in the
derived START, any two sessions with equal START keep their input (extraction)
order, and the output is a permutation of the input sessions. -/
theorem sort_sessions_correct (l out : List Session) (h : sort_sessions l = some out) :
    out.Pairwise (fun a b => dtLe (startKey a) (startKey b) = true) ∧
    (∀ a b : Session, a.START = b.START → [a, b] <+ l → [a, b] <+ out) ∧
    out ~ l := by
  have hout : out = pySorted (fun a b => dtLe (startKey a) (startKey b)) l := by
    unfold sort_sessions at h
    by_cases hall : l.all (fun s => s.START.isSome)
    · rw [if_pos hall] at h
      exact (Option.some_injective _ h).symm
    · rw [if_neg hall] at h
      cases h
  subst hout
  refine ⟨?_, ?_, pySorted_perm _ l⟩
  · exact @pairwise_pySorted _ (fun a b => dtLe (startKey a) (startKey b))
      (fun x y => dtLe_total (startKey x) (startKey y))
      (fun {x y z} h1 h2 => dtLe_trans h1 h2) l
  · intro a b hab hsub
    apply pair_sublist_pySorted ?_ hsub
    have : startKey a = startKey b := by unfold startKey; rw [hab]
    rw [this]
    exact dtLe_refl _

/-- A concrete session starting 2024-01-02T00:00, used by the C5 witness. -/
def sesW1 : Session :=
  ⟨2, ['a'], PyVal.none, PyVal.none, PyVal.none, PyVal.none, some ⟨⟨2024, 1, 2⟩, 0⟩,
   Option.none, Option.none, Option.none, Option.none, Option.none, []⟩

/-- A concrete session starting 2024-01-01T00:00, used by the C5 witness. -/
def sesW2 : Session :=
  ⟨3, ['b'], PyVal.none, PyVal.none, PyVal.none, PyVal.none, some ⟨⟨2024, 1, 1⟩, 0⟩,
   Option.none, Option.none, Option.none, Option.none, Option.none, []⟩

/-- Witness for `sort_sessions_correct` on a concrete two-session list that the
sort must reorder. -/
theorem sort_sessions_correct_witness :
    ([sesW2, sesW1] : List Session).Pairwise
      (fun a b => dtLe (startKey a) (startKey b) = true) ∧
    (∀ a b : Session, a.START = b.START → [a, b] <+ [sesW1, sesW2] →
      [a, b] <+ [sesW2, sesW1]) ∧
    ([sesW2, sesW1] : List Session) ~ [sesW1, sesW2] :=
  sort_sessions_correct [sesW1, sesW2] [sesW2, sesW1] (by decide)

/-! ### Error reporting (`Base`, __init__.py:22-59) and the validator state -/

/-- One entry of `Base.messages`.  `downgraded` records the `debug` argument
that was passed to `add_error` (the source encodes it only through the
`has_errors` side effect; the field makes that effect stateable). -/
structure Msg where
  typ : List Char
  text : List Char
  downgraded : Bool
deriving DecidableEq, Repr

/-- The configuration attributes of `XLMaster` that validation reads but never
writes: file year and type, debug switch, today's date, the reference data, and
the current UTC time (epoch seconds) used by the delay computation. -/
structure Config where
  year : List Char
  fileType : List Char
  debug : Bool
  today : YMD
  constrains : List (List Char × Nat)
  valid_codes : List (List Char × List (List Char))
  ns_codes : List (List Char)
  media_sizes : List Char
  old_code_constrain : Nat
  fs10 : List (List Char)
  session_type : List (List Char × List Char)
  now : Int
deriving DecidableEq, Repr

/-- The mutable `XLMaster`/`Base` state threaded through validation:
`self.codes` (lower-cased session codes seen so far), `self.has_errors`
(initially `None`, i.e. falsy) and `self.messages`. -/
structure VState where
  cfg : Config
  codes : List (List Char)
  has_errors : Bool
  messages : List Msg
deriving DecidableEq, Repr

/-- Python `str.lower()` (the codes are ASCII). -/
def pyLower (l : List Char) : List Char := l.map Char.toLower

/-- Zero-pad a rendered number to two digits (`%H`, `%M`, `%S`, `%m`, `%d`). -/
def pad2 (n : Nat) : List Char :=
  List.replicate (2 - (toString n).length) '0' ++ (toString n).data

/-- Zero-pad a rendered year to four digits (`%Y` as glibc renders it). -/
def pad4 (n : Int) : List Char :=
  List.replicate (4 - (toString n).length) '0' ++ (toString n).data

/-- `strftime('%Y-%m-%d')`. -/
def fmtYmd (d : YMD) : List Char :=
  pad4 d.year ++ "-".data ++ pad2 d.month ++ "-".data ++ pad2 d.day

/-- `str` of a time of day, `HH:MM:SS`. -/
def fmtHms (secs : Nat) : List Char :=
  pad2 (secs / 3600) ++ ":".data ++ pad2 (secs % 3600 / 60) ++ ":".data ++ pad2 (secs % 60)

/-- Python `str()` of a cell value, as interpolated into error messages. -/
def pyStrOf : PyVal → List Char
  | PyVal.none => "None".data
  | PyVal.str s => s
  | PyVal.int n => (toString n).data
  | PyVal.float q => (toString q).data
  | PyVal.dt t => fmtYmd t.date ++ " ".data ++ fmtHms t.secs
  | PyVal.date d => fmtYmd d
  | PyVal.time s => fmtHms s

/-- `Base.add_error` (__init__.py:47-59): set the failure flag unless the error
was downgraded by debug mode, then append a typed, located message. -/
def add_error (st : VState) (ses : Session) (error : List Char) (debug : Bool) : VState :=
  let st := if debug then st else { st with has_errors := true }
  let extra := if st.cfg.debug then "debug".data else []
  { st with messages := st.messages ++
      [⟨"ERROR".data,
        ses.CODE ++ " (".data ++ (toString ses.row).data ++ ") ".data ++ error ++
          " ".data ++ extra, debug⟩] }

/-- Gregorian leap year (`calendar` rules, as `strftime('%j')` uses). -/
def isLeap (y : Int) : Bool := (y % 4 == 0 && y % 100 != 0) || (y % 400 == 0)

/-- Length of month `m` (1-12). -/
def monthLen (leap : Bool) : Nat → Nat
  | 1 => 31
  | 2 => if leap then 29 else 28
  | 3 => 31
  | 4 => 30
  | 5 => 31
  | 6 => 30
  | 7 => 31
  | 8 => 31
  | 9 => 30
  | 10 => 31
  | 11 => 30
  | 12 => 31
  | _ => 0

/-- Days in the year strictly before month `m`. -/
def daysBefore (leap : Bool) : Nat → Nat
  | 0 => 0
  | m + 1 => daysBefore leap m + monthLen leap m

/-- `int(d.strftime('%j'))`: the 1-based ordinal of the day within its year. -/
def doyOf (d : YMD) : Int := (daysBefore (isLeap d.year) d.month + d.day : Nat)

/-- Days since 1970-01-01 of a Gregorian date (Hinnant's civil-from-days
inverse), used to convert datetimes to UTC epoch seconds. -/
def daysFromCivil (d : YMD) : Int :=
  let y := if d.month ≤ 2 then d.year - 1 else d.year
  let era := (if 0 ≤ y then y else y - 399).fdiv 400
  let yoe := y - era * 400
  let mp : Int := (d.month : Int) + (if 2 < d.month then -3 else 9)
  let doyc := (153 * mp + 2).fdiv 5 + (d.day : Int) - 1
  let doe := yoe * 365 + yoe.fdiv 4 - yoe.fdiv 100 + doyc
  era * 146097 + doe - 719468

/-- UTC epoch seconds of a datetime.  The source converts the naive `START`
with `astimezone(timezone.utc)`, i.e. through the local timezone; the model
corresponds to running with `TZ=UTC`, which is also how the claims read the
timestamps. -/
def epochSecs (t : DT) : Int := daysFromCivil t.date * 86400 + (t.secs : Int)

/-- `ses[field]` for the string-valued fields reachable from the configured
constraint and code tables (`CODE` is a field of its own; the rest live in
`extra`).  `none` models the `KeyError` on a missing key. -/
def sesField (ses : Session) (field : List Char) : Option (List Char) :=
  if field = "CODE".data then some ses.CODE
  else (ses.extra.find? (fun p => decide (p.1 = field))).map (fun p => p.2)

/-- Python `x in items` for a list of strings: a value of any other type is
simply not a member. -/
def pyValInStrs (v : PyVal) (items : List (List Char)) : Bool :=
  match v with
  | PyVal.str s => decide (s ∈ items)
  | _ => false

/-- `XLMaster.validate_station_info` (master.py:227-249), for string cells (an
empty or non-string cell yields the blank sentinel through truthiness or the
caught `AttributeError`).  `none` models the uncaught `IndexError` of
`value[2]` / `value[3]` on a short non-blank token of a master file. -/
def validate_station_info (st : VState) (ses : Session) (value : List Char)
    (hdr : List Char) : Option (VState × List Char × List Char) :=
  if value = [] ∨ pyStrip value = [] then some (st, "  ".data, "    ".data)
  else
    let sta := value.take 2
    (do
      let st ←
        if st.cfg.fileType = "master".data then do
          let c2 ← value[2]?
          if ¬ c2.isDigit then
            pure (add_error st ses
              ("invalid information [".data ++ value ++ "] in column ".data ++ hdr) false)
          else do
            let c3 ← value[3]?
            pure (if c3 ∉ st.cfg.media_sizes then
                add_error st ses
                  ("invalid information [".data ++ value ++ "] in column ".data ++ hdr) false
              else st)
        else pure st
      let st := if sta ∉ st.cfg.ns_codes then
          add_error st ses
            ("invalid station code [".data ++ sta ++ "] in column ".data ++ hdr) false
        else st
      pure (st, sta, value))

/-- master.py:274-276: flag a duplicate session name (case-insensitive), then
record the lower-cased code in `self.codes`. -/
def vs_duplicate (st : VState) (ses : Session) : VState :=
  let st := if pyLower ses.CODE ∈ st.codes then
      add_error st ses "duplicate session name".data false
    else st
  { st with codes := List.insert (pyLower ses.CODE) st.codes }

/-- master.py:277-279: configured per-field length constraints (`KeyError` on a
missing field). -/
def vs_constrains (st : VState) (ses : Session) : Option VState :=
  st.cfg.constrains.foldlM (fun st c => do
      let v ← sesField ses c.1
      pure (if c.2 < v.length then
          add_error st ses (c.1 ++ " ".data ++ v ++ " has more than ".data ++
            (toString c.2).data ++ " characters".data) false
        else st)) st

/-- master.py:281-284: DATE must be a datetime whose year is the file's year. -/
def vs_date_check (st : VState) (ses : Session) : VState :=
  match ses.DATE with
  | PyVal.dt t =>
    if pad4 t.date.year ≠ st.cfg.year then
      add_error st ses ("invalid DATE ".data ++ fmtYmd t.date) false
    else st
  | v => add_error st ses ("invalid DATE ".data ++ pyStrOf v) false

/-- master.py:285-286: TIME must be a time of day. -/
def vs_time_check (st : VState) (ses : Session) : VState :=
  match ses.TIME with
  | PyVal.time _ => st
  | v => add_error st ses ("invalid TIME ".data ++ pyStrOf v) false

/-- master.py:287-289: derive START only when DATE is date-like and TIME a
time, then narrow DATE to its date part; `ses['DATE'].date()` raises
`AttributeError` when DATE is a plain date. -/
def vs_start (ses : Session) : Option Session :=
  match ses.DATE, ses.TIME with
  | PyVal.dt t, PyVal.time secs =>
    some { ses with START := some ⟨t.date, secs⟩, DATE := PyVal.date t.date }
  | PyVal.date _, PyVal.time _ => Option.none
  | _, _ => some ses

/-- master.py:290-292: legacy CODE length limit with the FS-10 exemptions. -/
def vs_code_len (st : VState) (ses : Session) (stations : List (List Char)) : VState :=
  if st.cfg.old_code_constrain < ses.CODE.length then
    let notFs10 := stations.filter (fun c => decide (pyStrip c ≠ [] ∧ c ∉ st.cfg.fs10))
    if notFs10 ≠ [] then
      add_error st ses ("CODE too long for [".data ++
        List.intercalate ",".data notFs10 ++ "]! Maximum is ".data ++
        (toString st.cfg.old_code_constrain).data) false
    else st
  else st

/-- master.py:295-297: enumerated-code membership for every configured table
except STATUS and DBC (`KeyError` on a missing field). -/
def vs_valid_codes (st : VState) (ses : Session) : Option VState :=
  st.cfg.valid_codes.foldlM (fun st ci =>
      if ci.1 ≠ "STATUS".data ∧ ci.1 ≠ "DBC".data then do
        let v ← sesField ses ci.1
        pure (if v ∉ ci.2 then
            add_error st ses ("invalid ".data ++ ci.1 ++ " code ".data ++ v) false
          else st)
      else pure st) st

/-- master.py:300-303: EXPERIMENT backfill for pre-2024 sessions;
`ses['DATE'].year` raises `AttributeError` when DATE is not date-like. -/
def vs_experiment (st : VState) (ses : Session) : Option (VState × Session) := do
  let yr ← match ses.DATE with
    | PyVal.dt t => some t.date.year
    | PyVal.date d => some d.year
    | _ => Option.none
  if yr < 2024 then
    let res := (st.cfg.session_type.find?
      (fun p => decide (p.1 = pyLower (pyStrip ses.CODE)))).map (fun p => p.2)
    let ses := { ses with EXPERIMENT := some res }
    match res with
    | Option.none =>
      some (add_error st ses ("session ".data ++ pyLower (pyStrip ses.CODE) ++
        " not found in master-type-map.json file".data) false, ses)
    | some _ => some (st, ses)
  else some (st, ses)

/-- master.py:307: DOY is always recomputed from DATE (`strftime('%j')` raises
on a non-date). -/
def vs_doy (ses : Session) : Option Session := do
  let doy ← match ses.DATE with
    | PyVal.dt t => some (doyOf t.date)
    | PyVal.date d => some (doyOf d)
    | _ => Option.none
  some { ses with DOY := some doy }

/-- master.py:308-316: STATUS rules for master files after 1997.  A blank
STATUS due today-or-earlier is an error (a synthetic `'Wt_med'` in debug mode);
a non-timestamp STATUS must be in the STATUS code table.  Comparing a
non-plain-date DATE against today raises `TypeError`; a missing
`valid_codes['STATUS']` table raises `KeyError`. -/
def vs_status (st : VState) (ses : Session) : Option (VState × Session) :=
  if st.cfg.fileType = "master".data ∧ pyStrLt "1997".data st.cfg.year then
    if ¬ pyTruthy ses.STATUS then
      if st.cfg.debug then
        match ses.DATE with
        | PyVal.date d =>
          if ymdLe d st.cfg.today then
            some (st, { ses with STATUS := PyVal.str "Wt_med".data })
          else some (st, ses)
        | _ => Option.none
      else
        -- isinstance(·, date) admits datetimes, but `datetime <= date` raises
        match ses.DATE with
        | PyVal.date d =>
          if ymdLe d st.cfg.today then
            some (add_error st ses "STATUS code is blank!".data st.cfg.debug, ses)
          else some (st, ses)
        | PyVal.dt _ => Option.none
        | _ => some (st, ses)
    else
      match ses.STATUS with
      | PyVal.dt _ => some (st, ses)
      | PyVal.date _ => some (st, ses)
      | v => do
        let items ← (st.cfg.valid_codes.find?
          (fun p => decide (p.1 = "STATUS".data))).map (fun p => p.2)
        let stNew := if ¬ pyValInStrs v items then
            add_error st ses ("STATUS code ".data ++ pyStrOf v ++ " is not valid".data)
              st.cfg.debug
          else st
        some (stNew, ses)
  else some (st, ses)

/-- `XLMaster.validate_session` (master.py:267-318): the steps above in source
order.  `none` models any uncaught exception along the way. -/
def validate_session (st : VState) (ses : Session) (stations : List (List Char)) :
    Option (VState × Session) := do
  let st := vs_duplicate st ses
  let st ← vs_constrains st ses
  let st := vs_date_check st ses
  let st := vs_time_check st ses
  let ses ← vs_start ses
  let st := vs_code_len st ses stations
  let st ← vs_valid_codes st ses
  let stses ← vs_experiment st ses
  let st := stses.1
  -- 304: normalize CODE to lower case
  let ses := { stses.2 with CODE := pyLower stses.2.CODE }
  let ses ← vs_doy ses
  let stses ← vs_status st ses
  some (stses.1, stses.2)

/-! ### C3: validate_session and invalid DATE cells -/

/-- A concrete configuration for the C3/C6/C7 evaluations: a 2024 master file,
no debug mode, one media size, one station, a STATUS code table. -/
def cfg0 : Config :=
  ⟨"2024".data, "master".data, false, ⟨2024, 6, 1⟩, [], [("STATUS".data, ["Wt_med".data])],
   [['W', 'z']], ['G'], 6, [], [], 1704412800⟩

/-- The initial mutable state over `cfg0`. -/
def st0 : VState := ⟨cfg0, [], false, []⟩

/-- A session whose DATE cell holds the string `"junk"` and whose TIME is
valid — the row passes the `read_master` truthiness filter. -/
def sesBadDate : Session :=
  ⟨2, "fake24".data, PyVal.str "junk".data, PyVal.time 62700, PyVal.str "Wt_med".data,
   PyVal.int 3600, Option.none, Option.none, Option.none, Option.none, Option.none,
   Option.none, []⟩

/-- C3 is wrong about the code: `validate_session` is *not* total on records
with an invalid DATE.  The invalid DATE is duly reported at master.py:282 and
START is left underived, but line 300 then evaluates `ses['DATE'].year`
unconditionally, raising `AttributeError` (modelled by `none`) — the annotated
session is never returned. -/
theorem validate_session_raises_on_invalid_date :
    validate_session st0 sesBadDate [] = Option.none := by decide

/-! ### C6: duplicate session names (master.py:274-276) -/

/-- Worker for `duplicate_flags`: `seen` is `self.codes`. -/
def duplicate_flags_go (seen : List (List Char)) : List (List Char) → List Bool
  | [] => []
  | c :: rest =>
    decide (pyLower c ∈ seen) :: duplicate_flags_go (List.insert (pyLower c) seen) rest

/-- The duplicate-name check of `validate_session` (master.py:274-276) iterated
over the session codes of one file in validation order, starting from the empty
`self.codes` set: one Boolean per session, true iff the session is flagged with
`'duplicate session name'`. -/
def duplicate_flags (codes : List (List Char)) : List Bool :=
  duplicate_flags_go [] codes

theorem duplicate_flags_go_length (seen : List (List Char)) (codes : List (List Char)) :
    (duplicate_flags_go seen codes).length = codes.length := by
  induction codes generalizing seen with
  | nil => rfl
  | cons c rest ih => simp [duplicate_flags_go, ih]

theorem duplicate_flags_go_spec (codes : List (List Char)) :
    ∀ (seen : List (List Char)) (i : Nat), i < codes.length →
      ((duplicate_flags_go seen codes).getD i false = true ↔
        (pyLower (codes.getD i []) ∈ seen ∨
          ∃ j < i, pyLower (codes.getD j []) = pyLower (codes.getD i []))) := by
  induction codes with
  | nil => intro seen i h; simp at h
  | cons c rest ih =>
    intro seen i h
    cases i with
    | zero =>
      simp [duplicate_flags_go]
    | succ i =>
      have hi : i < rest.length := by simpa using h
      rw [duplicate_flags_go]
      simp only [List.getD_cons_succ]
      rw [ih (List.insert (pyLower c) seen) i hi]
      constructor
      · rintro (hmem | ⟨j, hj, hje⟩)
        · rcases List.mem_insert_iff.mp hmem with heq | hmem
          · exact Or.inr ⟨0, Nat.succ_pos i, by simpa using heq.symm⟩
          · exact Or.inl hmem
        · exact Or.inr ⟨j + 1, by omega, by simpa using hje⟩
      · rintro (hmem | ⟨j, hj, hje⟩)
        · exact Or.inl (List.mem_insert_iff.mpr (Or.inr hmem))
        · cases j with
          | zero => exact Or.inl (List.mem_insert_iff.mpr (Or.inl (by simpa using hje.symm)))
          | succ j => exact Or.inr ⟨j, by omega, by simpa using hje⟩

/-- C6: a session is flagged as a duplicate exactly when some earlier session's
CODE equals its CODE ignoring case; a code occurring only once is never
flagged; and every session of the sequence receives a verdict (a duplicate
never stops the scan). -/
theorem duplicate_flags_correct (codes : List (List Char)) :
    (duplicate_flags codes).length = codes.length ∧
    (∀ i, i < codes.length →
      ((duplicate_flags codes).getD i false = true ↔
        ∃ j < i, pyLower (codes.getD j []) = pyLower (codes.getD i []))) ∧
    (∀ i, i < codes.length →
      (∀ j, j < codes.length → j ≠ i →
        pyLower (codes.getD j []) ≠ pyLower (codes.getD i [])) →
      (duplicate_flags codes).getD i false = false) := by
  refine ⟨duplicate_flags_go_length [] codes, ?_, ?_⟩
  · intro i h
    rw [duplicate_flags, duplicate_flags_go_spec codes [] i h]
    simp
  · intro i h huniq
    by_contra hne
    have : (duplicate_flags codes).getD i false = true := by
      cases hval : (duplicate_flags codes).getD i false
      · exact absurd hval hne
      · rfl
    rw [duplicate_flags, duplicate_flags_go_spec codes [] i h] at this
    rcases this with hmem | ⟨j, hj, hje⟩
    · simp at hmem
    · exact huniq j (by omega) (by omega) hje

/-- Witness for `duplicate_flags_correct` at a concrete code list where the
second code repeats the first up to case and the third is unique. -/
theorem duplicate_flags_correct_witness :
    (duplicate_flags ["aB".data, "Ab".data, "c".data]).getD 1 false = true ∧
    (duplicate_flags ["aB".data, "Ab".data, "c".data]).getD 2 false = false :=
  ⟨((duplicate_flags_correct ["aB".data, "Ab".data, "c".data]).2.1 1 (by decide)).mpr
      ⟨0, by decide, by decide⟩,
   (duplicate_flags_correct ["aB".data, "Ab".data, "c".data]).2.2 2 (by decide)
      (by decide)⟩

/-! ### read_master (master.py:330-383) -/

/-- One extracted data row, as the cell loop of `read_master` (344-357) builds
it: the specially-treated fields, the remaining string-valued columns, and the
station-column cells in order (`Option.none` = an `EmptyCell`, which the source
skips; string cells only, a non-string station cell behaves as blank through
the caught `AttributeError`). -/
structure RawRow where
  row : Nat
  CODE : List Char
  DATE : PyVal
  TIME : PyVal
  STATUS : PyVal
  DUR : PyVal
  extra : List (List Char × List Char)
  stationCells : List (Option (List Char))
deriving DecidableEq, Repr

/-- The session dict as it stands when the cell loop of a row has finished. -/
def rawSession (r : RawRow) : Session :=
  ⟨r.row, r.CODE, r.DATE, r.TIME, r.STATUS, r.DUR, Option.none, Option.none, Option.none,
   Option.none, Option.none, Option.none, r.extra⟩

/-- The seconds argument of `timedelta(seconds=ses['DUR'])`: an int, or a float
at an integral value (fractional-second durations are outside this model; the
claims use whole seconds).  Anything else raises. -/
def pyNumSecs : PyVal → Option Int
  | PyVal.int n => some n
  | PyVal.float q => if q.den = 1 then some q.num else Option.none
  | _ => Option.none

/-- master.py:352-357: the station columns of one row feed the token validator;
blank sentinels and errors accumulate, empty cells are skipped.  The cells come
paired with their 0-based position, giving the `Stat<i>` header used in
messages. -/
def rm_station_step (ses0 : Session) (acc2 : VState × List (List Char) × List (List Char))
    (cell : Nat × Option (List Char)) :
    Option (VState × List (List Char) × List (List Char)) :=
  match cell.2 with
  | Option.none => some (acc2.1, acc2.2.1, acc2.2.2)
  | some v => do
    let r3 ← validate_station_info acc2.1 ses0 v
      ("Stat".data ++ (toString (cell.1 + 1)).data)
    some (r3.1, acc2.2.1 ++ [r3.2.1], acc2.2.2 ++ [r3.2.2])

def rm_stations (st : VState) (ses0 : Session) (cells : List (Nat × Option (List Char))) :
    Option (VState × List (List Char) × List (List Char)) :=
  cells.foldlM (rm_station_step ses0)
    (st, ([] : List (List Char)), ([] : List (List Char)))

/-- master.py:368-377: the DELAY field — blank before 2003, else computed from
STATUS (or now) relative to `start + duration`.  `KeyError` when START was
never derived; `TypeError` on a non-numeric DUR; `AttributeError` when STATUS
is a plain date (`astimezone`). -/
def rm_delay (st : VState) (ses : Session) : Option Session :=
  if pyStrLt st.cfg.year "2003".data then some { ses with DELAY := some Delay.blank }
  else do
    let startDt ← ses.START
    let durSecs ← pyNumSecs ses.DUR
    let statusTs ← match ses.STATUS with
      | PyVal.dt t => some (some (epochSecs t))
      | PyVal.date _ => Option.none
      | _ => some Option.none
    let d := compute_delay st.cfg.year (epochSecs startDt) durSecs statusTs st.cfg.now
    some { ses with DELAY := some d }

/-- The body of the row loop of `read_master` (master.py:344-379) for one row. -/
def rm_row (acc : VState × List Session) (r : RawRow) : Option (VState × List Session) := do
  let ses0 := rawSession r
  let stMm ← rm_stations acc.1 ses0 r.stationCells.enum
  -- 359-360: skip a row without a usable DATE
  if ¬ pyTruthy r.DATE then some (stMm.1, acc.2)
  else do
    let stSes ← validate_session stMm.1 ses0 stMm.2.1
    -- 365-366: grouped station and media text
    let m ← format_list stMm.2.1 2
    let md4 ← format_list stMm.2.2 4
    let ses := { stSes.2 with master := some m, media := some md4 }
    let ses ← rm_delay stSes.1 ses
    some (stSes.1, acc.2 ++ [ses])

/-- `XLMaster.read_master` (master.py:330-383).  The openpyxl header/column
mapping (337-340) is not re-modelled: each `RawRow` arrives as the extracted
record.  `none` models an uncaught exception anywhere in the loop; on success
the result is the final state and `self.sessions` (the source returns
`not self.has_errors`, which the state carries). -/
def read_master (st : VState) (rows : List RawRow) : Option (VState × List Session) := do
  let stSessions ← rows.foldlM rm_row (st, ([] : List Session))
  -- 381-382: stable sort by START
  let sorted ← sort_sessions stSessions.2
  some (stSessions.1, sorted)

/-- A row whose TIME cell is invalid but whose DATE is fine: validation reports
the bad TIME and continues, but START is never derived. -/
def rowBadTime : RawRow :=
  ⟨2, "aaaa24".data, PyVal.dt ⟨⟨2024, 1, 1⟩, 0⟩, PyVal.str "oops".data,
   PyVal.str "Wt_med".data, PyVal.int 3600, [], [some "Wz1G".data]⟩

/-- A perfectly well-formed row after it. -/
def rowGood : RawRow :=
  ⟨3, "bbbb24".data, PyVal.dt ⟨⟨2024, 1, 2⟩, 0⟩, PyVal.time 3600,
   PyVal.str "Wt_med".data, PyVal.int 3600, [], [some "Wz1G".data]⟩

/-- C7, counterexample to the claim as stated: a validation error (invalid
TIME) in the first row leaves its START underived; the delay computation at
master.py:373 then raises `KeyError` and the whole scan aborts — the
well-formed second row is never validated, kept or reported on. -/
theorem read_master_halts_counterexample :
    read_master st0 [rowBadTime, rowGood] = Option.none := by decide

/-! ### C7: batch error accumulation -/

/-- How a validation step changes the mutable state: the configuration is
untouched, messages are only appended, and the failure flag ends up set exactly
when it was already set or a non-downgraded message was appended. -/
def ErrAccum (st st' : VState) : Prop :=
  st'.cfg = st.cfg ∧
  ∃ new, st'.messages = st.messages ++ new ∧
    (st'.has_errors = true ↔ (st.has_errors = true ∨ ∃ m ∈ new, m.downgraded = false))

theorem errAccum_refl (st : VState) : ErrAccum st st :=
  ⟨rfl, [], by simp, by simp⟩

theorem exists_downgraded_append (n1 n2 : List Msg) :
    (∃ m ∈ n1 ++ n2, m.downgraded = false) ↔
      ((∃ m ∈ n1, m.downgraded = false) ∨ (∃ m ∈ n2, m.downgraded = false)) := by
  constructor
  · rintro ⟨m, hm, hd⟩
    rcases List.mem_append.mp hm with h | h
    · exact Or.inl ⟨m, h, hd⟩
    · exact Or.inr ⟨m, h, hd⟩
  · rintro (⟨m, hm, hd⟩ | ⟨m, hm, hd⟩)
    · exact ⟨m, List.mem_append.mpr (Or.inl hm), hd⟩
    · exact ⟨m, List.mem_append.mpr (Or.inr hm), hd⟩

theorem errAccum_trans {s1 s2 s3 : VState} (h1 : ErrAccum s1 s2) (h2 : ErrAccum s2 s3) :
    ErrAccum s1 s3 := by
  obtain ⟨hc1, n1, hm1, hf1⟩ := h1
  obtain ⟨hc2, n2, hm2, hf2⟩ := h2
  refine ⟨hc2.trans hc1, n1 ++ n2, by rw [hm2, hm1, List.append_assoc], ?_⟩
  rw [hf2, hf1, exists_downgraded_append]
  exact or_assoc

theorem errAccum_add_error (st : VState) (ses : Session) (e : List Char) (dbg : Bool) :
    ErrAccum st (add_error st ses e dbg) := by
  cases dbg with
  | false => exact ⟨rfl, _, rfl, by simp [add_error]⟩
  | true => exact ⟨rfl, _, rfl, by simp [add_error]⟩

theorem errAccum_ite (st : VState) (ses : Session) (e : List Char) (dbg : Bool)
    (c : Prop) [Decidable c] :
    ErrAccum st (if c then add_error st ses e dbg else st) := by
  split
  · exact errAccum_add_error st ses e dbg
  · exact errAccum_refl st

theorem errAccum_set_codes {st st' : VState} (h : ErrAccum st st') (x : List (List Char)) :
    ErrAccum st { st' with codes := x } := h

/-- An `Option`-valued fold whose every step succeeds and accumulates errors
succeeds and accumulates errors. -/
theorem foldlM_errAccum {β : Type} (f : VState → β → Option VState) :
    ∀ (l : List β) (st : VState),
      (∀ st1 b, b ∈ l → st1.cfg = st.cfg → ∃ st2, f st1 b = some st2 ∧ ErrAccum st1 st2) →
      ∃ st', l.foldlM f st = some st' ∧ ErrAccum st st' := by
  intro l
  induction l with
  | nil => intro st _; exact ⟨st, rfl, errAccum_refl st⟩
  | cons b rest ih =>
    intro st h
    obtain ⟨st1, hf, ha⟩ := h st b (List.mem_cons_self b rest) rfl
    obtain ⟨st', hfold, ha'⟩ :=
      ih st1 (fun st2 c hc hcfg => h st2 c (List.mem_cons_of_mem b hc) (hcfg.trans ha.1))
    refine ⟨st', ?_, errAccum_trans ha ha'⟩
    rw [List.foldlM_cons, hf]
    simpa using hfold

/-! Success lemmas for the validation steps. -/

theorem vs_duplicate_errAccum (st : VState) (ses : Session) :
    ErrAccum st (vs_duplicate st ses) := by
  unfold vs_duplicate
  apply errAccum_set_codes
  split
  · exact errAccum_add_error st ses _ false
  · exact errAccum_refl st

theorem vs_constrains_ok (st : VState) (ses : Session)
    (h : ∀ c ∈ st.cfg.constrains, (sesField ses c.1).isSome) :
    ∃ st', vs_constrains st ses = some st' ∧ ErrAccum st st' := by
  unfold vs_constrains
  apply foldlM_errAccum
  intro st1 c hc _
  obtain ⟨v, hv⟩ := Option.isSome_iff_exists.mp (h c hc)
  refine ⟨if c.2 < v.length then
      add_error st1 ses (c.1 ++ " ".data ++ v ++ " has more than ".data ++
        (toString c.2).data ++ " characters".data) false
    else st1, ?_, errAccum_ite st1 ses _ false _⟩
  rw [hv]
  rfl

theorem vs_date_check_errAccum (st : VState) (ses : Session) :
    ErrAccum st (vs_date_check st ses) := by
  unfold vs_date_check
  generalize ses.DATE = v
  cases v with
  | dt t => exact errAccum_ite st ses _ false _
  | none => exact errAccum_add_error st ses _ false
  | str s => exact errAccum_add_error st ses _ false
  | int n => exact errAccum_add_error st ses _ false
  | float q => exact errAccum_add_error st ses _ false
  | date d => exact errAccum_add_error st ses _ false
  | time s => exact errAccum_add_error st ses _ false

theorem vs_time_check_errAccum (st : VState) (ses : Session) :
    ErrAccum st (vs_time_check st ses) := by
  unfold vs_time_check
  generalize ses.TIME = v
  cases v with
  | time s => exact errAccum_refl st
  | none => exact errAccum_add_error st ses _ false
  | str s => exact errAccum_add_error st ses _ false
  | int n => exact errAccum_add_error st ses _ false
  | float q => exact errAccum_add_error st ses _ false
  | dt t => exact errAccum_add_error st ses _ false
  | date d => exact errAccum_add_error st ses _ false

theorem vs_code_len_errAccum (st : VState) (ses : Session) (stations : List (List Char)) :
    ErrAccum st (vs_code_len st ses stations) := by
  unfold vs_code_len
  split
  · exact errAccum_ite st ses _ false _
  · exact errAccum_refl st

theorem vs_valid_codes_ok (st : VState) (ses : Session)
    (h : ∀ ci ∈ st.cfg.valid_codes, ci.1 ≠ "STATUS".data → ci.1 ≠ "DBC".data →
      (sesField ses ci.1).isSome) :
    ∃ st', vs_valid_codes st ses = some st' ∧ ErrAccum st st' := by
  unfold vs_valid_codes
  apply foldlM_errAccum
  intro st1 ci hci _
  by_cases hne : ci.1 ≠ "STATUS".data ∧ ci.1 ≠ "DBC".data
  · obtain ⟨v, hv⟩ := Option.isSome_iff_exists.mp (h ci hci hne.1 hne.2)
    refine ⟨if v ∉ ci.2 then
        add_error st1 ses ("invalid ".data ++ ci.1 ++ " code ".data ++ v) false
      else st1, ?_, errAccum_ite st1 ses _ false _⟩
    rw [if_pos hne, hv]
    rfl
  · exact ⟨st1, by rw [if_neg hne]; rfl, errAccum_refl st1⟩

/-- The session fields later steps still read, preserved by a step. -/
def SameCore (a b : Session) : Prop :=
  b.row = a.row ∧ b.CODE = a.CODE ∧ b.DATE = a.DATE ∧ b.STATUS = a.STATUS ∧
  b.DUR = a.DUR ∧ b.START = a.START

theorem vs_experiment_ok (st : VState) (ses : Session) {d : YMD}
    (hdate : ses.DATE = PyVal.date d) :
    ∃ st' ses', vs_experiment st ses = some (st', ses') ∧ ErrAccum st st' ∧
      SameCore ses ses' := by
  unfold vs_experiment
  rw [hdate]
  simp only [Option.bind_eq_bind, Option.some_bind]
  by_cases hyr : d.year < 2024
  · rw [if_pos hyr]
    cases hres : (st.cfg.session_type.find?
        (fun p => decide (p.1 = pyLower (pyStrip ses.CODE)))).map (fun p => p.2) with
    | none =>
      exact ⟨_, _, rfl, errAccum_add_error st _ _ false, rfl, rfl, hdate.symm, rfl, rfl, rfl⟩
    | some e =>
      exact ⟨st, _, rfl, errAccum_refl st, rfl, rfl, hdate.symm, rfl, rfl, rfl⟩
  · rw [if_neg hyr]
    exact ⟨st, ses, rfl, errAccum_refl st, rfl, rfl, rfl, rfl, rfl, rfl⟩

theorem vs_doy_ok (ses : Session) {d : YMD}
    (hdate : ses.DATE = PyVal.date d) :
    ∃ ses', vs_doy ses = some ses' ∧ SameCore ses ses' := by
  unfold vs_doy
  rw [hdate]
  exact ⟨_, rfl, rfl, rfl, hdate.symm, rfl, rfl, rfl⟩

theorem vs_status_ok (st : VState) (ses : Session) {d : YMD}
    (hdate : ses.DATE = PyVal.date d)
    (hstatus_nd : ∀ x, ses.STATUS ≠ PyVal.date x)
    (hstat_tbl : (st.cfg.valid_codes.find? (fun p => decide (p.1 = "STATUS".data))).isSome) :
    ∃ st' ses', vs_status st ses = some (st', ses') ∧ ErrAccum st st' ∧
      ses'.row = ses.row ∧ ses'.START = ses.START ∧ ses'.DUR = ses.DUR ∧
      (∀ x, ses'.STATUS ≠ PyVal.date x) := by
  unfold vs_status
  by_cases houter : st.cfg.fileType = "master".data ∧ pyStrLt "1997".data st.cfg.year
  · rw [if_pos houter]
    by_cases hblank : ¬ pyTruthy ses.STATUS
    · rw [if_pos hblank]
      by_cases hdbg : st.cfg.debug
      · rw [if_pos hdbg, hdate]
        dsimp only
        by_cases hle : ymdLe d st.cfg.today
        · rw [if_pos hle]
          exact ⟨st, _, rfl, errAccum_refl st, rfl, rfl, rfl, by intro x h; cases h⟩
        · rw [if_neg hle]
          exact ⟨st, ses, rfl, errAccum_refl st, rfl, rfl, rfl, hstatus_nd⟩
      · rw [if_neg hdbg, hdate]
        dsimp only
        by_cases hle : ymdLe d st.cfg.today
        · rw [if_pos hle]
          exact ⟨_, ses, rfl, errAccum_add_error st ses _ st.cfg.debug, rfl, rfl, rfl,
            hstatus_nd⟩
        · rw [if_neg hle]
          exact ⟨st, ses, rfl, errAccum_refl st, rfl, rfl, rfl, hstatus_nd⟩
    · rw [if_neg hblank]
      obtain ⟨pr, hpr⟩ := Option.isSome_iff_exists.mp hstat_tbl
      cases hsv : ses.STATUS with
      | dt t => exact ⟨st, ses, rfl, errAccum_refl st, rfl, rfl, rfl, hstatus_nd⟩
      | date x => exact absurd hsv (hstatus_nd x)
      | none => rw [hpr]; exact ⟨_, ses, rfl, errAccum_ite st ses _ st.cfg.debug _, rfl, rfl, rfl, hstatus_nd⟩
      | str s => rw [hpr]; exact ⟨_, ses, rfl, errAccum_ite st ses _ st.cfg.debug _, rfl, rfl, rfl, hstatus_nd⟩
      | int n => rw [hpr]; exact ⟨_, ses, rfl, errAccum_ite st ses _ st.cfg.debug _, rfl, rfl, rfl, hstatus_nd⟩
      | float q => rw [hpr]; exact ⟨_, ses, rfl, errAccum_ite st ses _ st.cfg.debug _, rfl, rfl, rfl, hstatus_nd⟩
      | time s => rw [hpr]; exact ⟨_, ses, rfl, errAccum_ite st ses _ st.cfg.debug _, rfl, rfl, rfl, hstatus_nd⟩
  · rw [if_neg houter]
    exact ⟨st, ses, rfl, errAccum_refl st, rfl, rfl, rfl, hstatus_nd⟩

/-- `validate_session` succeeds on a record with a datetime DATE, a valid TIME,
a non-bare-date STATUS and all configured fields present: it returns the
annotated session with the derived START, accumulating errors without raising. -/
theorem validate_session_ok (st : VState) (ses : Session) (stations : List (List Char))
    (t : DT) (sec : Nat)
    (hdt : ses.DATE = PyVal.dt t)
    (htime : ses.TIME = PyVal.time sec)
    (hstatus_nd : ∀ x, ses.STATUS ≠ PyVal.date x)
    (hconstr : ∀ c ∈ st.cfg.constrains, (sesField ses c.1).isSome)
    (hcodes : ∀ ci ∈ st.cfg.valid_codes, ci.1 ≠ "STATUS".data → ci.1 ≠ "DBC".data →
      (sesField ses ci.1).isSome)
    (hstat_tbl : (st.cfg.valid_codes.find? (fun p => decide (p.1 = "STATUS".data))).isSome) :
    ∃ st' ses', validate_session st ses stations = some (st', ses') ∧ ErrAccum st st' ∧
      ses'.row = ses.row ∧ ses'.START = some ⟨t.date, sec⟩ ∧ ses'.DUR = ses.DUR ∧
      (∀ x, ses'.STATUS ≠ PyVal.date x) := by
  have hdup : ErrAccum st (vs_duplicate st ses) := vs_duplicate_errAccum st ses
  obtain ⟨st2, h2, ha2⟩ := vs_constrains_ok (vs_duplicate st ses) ses
    (by rw [hdup.1]; exact hconstr)
  have ha2' : ErrAccum st st2 := errAccum_trans hdup ha2
  have hd3 : ErrAccum st (vs_time_check (vs_date_check st2 ses) ses) :=
    errAccum_trans ha2' (errAccum_trans (vs_date_check_errAccum st2 ses)
      (vs_time_check_errAccum (vs_date_check st2 ses) ses))
  have hstart : vs_start ses =
      some { ses with START := some ⟨t.date, sec⟩, DATE := PyVal.date t.date } := by
    unfold vs_start
    rw [hdt, htime]
  have ha4 : ErrAccum st (vs_code_len (vs_time_check (vs_date_check st2 ses) ses)
      { ses with START := some ⟨t.date, sec⟩, DATE := PyVal.date t.date } stations) :=
    errAccum_trans hd3 (vs_code_len_errAccum _ _ stations)
  obtain ⟨st5, h5, ha5⟩ := vs_valid_codes_ok (vs_code_len (vs_time_check (vs_date_check st2 ses) ses)
      { ses with START := some ⟨t.date, sec⟩, DATE := PyVal.date t.date } stations)
    { ses with START := some ⟨t.date, sec⟩, DATE := PyVal.date t.date }
    (by rw [ha4.1]; exact hcodes)
  have ha5' : ErrAccum st st5 := errAccum_trans ha4 ha5
  obtain ⟨st6, sesB, h6, ha6, hscB⟩ := vs_experiment_ok st5
    { ses with START := some ⟨t.date, sec⟩, DATE := PyVal.date t.date } rfl
  have ha6' : ErrAccum st st6 := errAccum_trans ha5' ha6
  have hdC : ({ sesB with CODE := pyLower sesB.CODE } : Session).DATE = PyVal.date t.date := by
    show sesB.DATE = _
    rw [hscB.2.2.1]
  obtain ⟨sesD, h7, hscD⟩ := vs_doy_ok { sesB with CODE := pyLower sesB.CODE } hdC
  have hdD : sesD.DATE = PyVal.date t.date := by
    rw [hscD.2.2.1]
    exact hdC
  have hstD : ∀ x, sesD.STATUS ≠ PyVal.date x := by
    intro x
    rw [hscD.2.2.2.1]
    show sesB.STATUS ≠ _
    rw [hscB.2.2.2.1]
    exact hstatus_nd x
  obtain ⟨st8, sesE, h8, ha8, hrow8, hstart8, hdur8, hstat8⟩ := vs_status_ok st6 sesD hdD hstD
    (by rw [ha6'.1]; exact hstat_tbl)
  refine ⟨st8, sesE, ?_, errAccum_trans ha6' ha8, ?_, ?_, ?_, hstat8⟩
  · unfold validate_session
    dsimp only
    rw [h2]
    simp only [Option.bind_eq_bind, Option.some_bind]
    rw [hstart]
    simp only [Option.bind_eq_bind, Option.some_bind]
    rw [h5]
    simp only [Option.bind_eq_bind, Option.some_bind]
    rw [h6]
    simp only [Option.bind_eq_bind, Option.some_bind]
    rw [h7]
    simp only [Option.bind_eq_bind, Option.some_bind]
    rw [h8]
    rfl
  · rw [hrow8, hscD.1]
    show sesB.row = ses.row
    rw [hscB.1]
  · rw [hstart8, hscD.2.2.2.2.2]
    show sesB.START = _
    rw [hscB.2.2.2.2.2]
  · rw [hdur8, hscD.2.2.2.2.1]
    show sesB.DUR = _
    rw [hscB.2.2.2.2.1]

theorem pyStrip_eq_nil_of_all {l : List Char} (h : ∀ c ∈ l, pyIsSpace c) :
    pyStrip l = [] := by
  have h1 : l.dropWhile pyIsSpace = [] := List.dropWhile_eq_nil_iff.mpr h
  simp [pyStrip, h1]

theorem pySplitF_ne_nil :
    ∀ (fuel : Nat) (l : List Char), l.length ≤ fuel → (∃ c ∈ l, ¬ pyIsSpace c) →
      pySplitF fuel l ≠ [] := by
  intro fuel
  induction fuel with
  | zero =>
    intro l hl hex
    obtain ⟨c, hc, _⟩ := hex
    cases l with
    | nil => simp at hc
    | cons a as => simp at hl
  | succ fuel ih =>
    intro l hl hex
    cases l with
    | nil => obtain ⟨c, hc, _⟩ := hex; simp at hc
    | cons c cs =>
      rw [pySplitF]
      by_cases h : pyIsSpace c
      · rw [if_pos h]
        apply ih cs (by simpa using hl)
        obtain ⟨d, hd, hnd⟩ := hex
        rcases List.mem_cons.mp hd with rfl | hd
        · exact absurd h hnd
        · exact ⟨d, hd, hnd⟩
      · rw [if_neg h]
        simp

/-- `format_list` succeeds whenever some token still has a non-blank character
after truncation (then a first cluster exists). -/
theorem format_list_isSome {stations : List (List Char)} {n : Nat}
    (hex : ∃ s ∈ stations, pyStrip (s.take n) ≠ []) :
    (format_list stations n).isSome := by
  obtain ⟨s, hs, hsne⟩ := hex
  have hchar : ∃ c ∈ s.take n, ¬ pyIsSpace c := by
    by_contra hall
    push_neg at hall
    exact hsne (pyStrip_eq_nil_of_all (fun c hc => by simpa using hall c hc))
  cases stations with
  | nil => simp at hs
  | cons s0 rest =>
    have hjoin : ∃ c ∈ ((s0 :: rest).map (fun sta => sta.take n)).flatten, ¬ pyIsSpace c := by
      obtain ⟨c, hc1, hc2⟩ := hchar
      exact ⟨c, List.mem_flatten.mpr ⟨s.take n, List.mem_map.mpr ⟨s, hs, rfl⟩, hc1⟩, hc2⟩
    have hsp : pySplit (((s0 :: rest).map (fun sta => sta.take n)).flatten) ≠ [] :=
      pySplitF_ne_nil _ _ le_rfl hjoin
    unfold format_list
    dsimp only
    cases hg : pySplit (((s0 :: rest).map (fun sta => sta.take n)).flatten) with
    | nil => exact absurd hg hsp
    | cons g gs =>
      by_cases h0 : pyStrip s0 = []
      · rw [if_pos h0]
        simp
      · rw [if_neg h0]
        simp

/-- `validate_station_info` succeeds on a blank token or one of length ≥ 4,
yielding either the blank sentinels or the 2-letter code with the raw token. -/
theorem validate_station_info_ok (st : VState) (ses : Session) (v hdr : List Char)
    (h : pyStrip v = [] ∨ 4 ≤ v.length) :
    ∃ st' sta sz, validate_station_info st ses v hdr = some (st', sta, sz) ∧
      ErrAccum st st' ∧
      ((pyStrip v = [] ∧ sta = "  ".data ∧ sz = "    ".data) ∨
       (pyStrip v ≠ [] ∧ sta = v.take 2 ∧ sz = v)) := by
  unfold validate_station_info
  by_cases hb : v = [] ∨ pyStrip v = []
  · rw [if_pos hb]
    refine ⟨st, _, _, rfl, errAccum_refl st, Or.inl ⟨?_, rfl, rfl⟩⟩
    rcases hb with rfl | hb
    · rfl
    · exact hb
  · rw [if_neg hb]
    push_neg at hb
    have hlen : 4 ≤ v.length := by
      rcases h with h | h
      · exact absurd h hb.2
      · exact h
    have h2 : (2 : Nat) < v.length := by omega
    have h3 : (3 : Nat) < v.length := by omega
    by_cases hm : st.cfg.fileType = "master".data
    · rw [if_pos hm, List.getElem?_eq_getElem h2]
      simp only [Option.pure_def, Option.bind_eq_bind, Option.some_bind]
      by_cases hdig : ¬ (v[2]).isDigit
      · rw [if_pos hdig]
        exact ⟨_, _, _, rfl,
          errAccum_trans (errAccum_add_error st ses _ false) (errAccum_ite _ ses _ false _),
          Or.inr ⟨hb.2, rfl, rfl⟩⟩
      · rw [if_neg hdig, List.getElem?_eq_getElem h3]
        exact ⟨_, _, _, rfl,
          errAccum_trans (errAccum_ite st ses _ false _) (errAccum_ite _ ses _ false _),
          Or.inr ⟨hb.2, rfl, rfl⟩⟩
    · rw [if_neg hm]
      simp only [Option.pure_def, Option.bind_eq_bind, Option.some_bind]
      exact ⟨_, _, _, rfl, errAccum_ite st ses _ false _, Or.inr ⟨hb.2, rfl, rfl⟩⟩

/-- The station-cell fold of one row succeeds on well-formed cells, accumulates
errors only, and collects the 2-letter code and the raw token of every
non-blank cell. -/
theorem rm_stations_fold (ses0 : Session) (cells : List (Nat × Option (List Char))) :
    ∀ (st : VState) (ms0 md0 : List (List Char)),
      (∀ cl ∈ cells, ∀ v, cl.2 = some v → pyStrip v = [] ∨ 4 ≤ v.length) →
      ∃ st' msN mdN,
        cells.foldlM (rm_station_step ses0) (st, ms0, md0) =
          some (st', ms0 ++ msN, md0 ++ mdN) ∧
        ErrAccum st st' ∧
        (∀ v, (∃ cl ∈ cells, cl.2 = some v) → pyStrip v ≠ [] →
          v.take 2 ∈ msN ∧ v ∈ mdN) := by
  induction cells with
  | nil =>
    intro st ms0 md0 _
    refine ⟨st, [], [], by simp, errAccum_refl st, ?_⟩
    rintro v ⟨cl, hcl, _⟩ _
    simp at hcl
  | cons cell cells ih =>
    intro st ms0 md0 hok
    cases hcv : cell.2 with
    | none =>
      obtain ⟨st', msN, mdN, hfold, ha, hmem⟩ := ih st ms0 md0
        (fun cl hcl => hok cl (List.mem_cons_of_mem cell hcl))
      refine ⟨st', msN, mdN, ?_, ha, ?_⟩
      · rw [List.foldlM_cons]
        rw [show rm_station_step ses0 (st, ms0, md0) cell = some (st, ms0, md0) from by
          unfold rm_station_step; rw [hcv]]
        simpa using hfold
      · rintro v ⟨cl, hcl, hsome⟩ hnb
        rcases List.mem_cons.mp hcl with rfl | hcl
        · rw [hcv] at hsome; cases hsome
        · exact hmem v ⟨cl, hcl, hsome⟩ hnb
    | some v0 =>
      obtain ⟨st1, sta, sz, hvsi, ha1, hcase⟩ := validate_station_info_ok st ses0 v0
        ("Stat".data ++ (toString (cell.1 + 1)).data)
        (hok cell (List.mem_cons_self cell cells) v0 hcv)
      obtain ⟨st', msN, mdN, hfold, ha2, hmem⟩ := ih st1 (ms0 ++ [sta]) (md0 ++ [sz])
        (fun cl hcl => hok cl (List.mem_cons_of_mem cell hcl))
      refine ⟨st', sta :: msN, sz :: mdN, ?_, errAccum_trans ha1 ha2, ?_⟩
      · rw [List.foldlM_cons]
        rw [show rm_station_step ses0 (st, ms0, md0) cell = some (st1, ms0 ++ [sta], md0 ++ [sz])
          from by unfold rm_station_step; rw [hcv]; dsimp only; rw [hvsi]; rfl]
        simp only [Option.bind_eq_bind, Option.some_bind]
        rw [hfold, List.append_assoc, List.append_assoc]
        rfl
      · rintro v ⟨cl, hcl, hsome⟩ hnb
        rcases List.mem_cons.mp hcl with rfl | hcl
        · rw [hcv] at hsome
          injection hsome with hv
          subst hv
          rcases hcase with ⟨hblank, _, _⟩ | ⟨_, hsta, hsz⟩
          · exact absurd hblank hnb
          · exact ⟨by rw [hsta]; exact List.mem_cons_self _ msN,
              by rw [hsz]; exact List.mem_cons_self _ mdN⟩
        · obtain ⟨h1, h2⟩ := hmem v ⟨cl, hcl, hsome⟩ hnb
          exact ⟨List.mem_cons_of_mem sta h1, List.mem_cons_of_mem sz h2⟩

/-- `rm_delay` succeeds when START was derived, DUR is numeric and STATUS is
not a bare date, and touches only the DELAY field. -/
theorem rm_delay_ok (st : VState) (ses : Session)
    (hstart : ses.START.isSome)
    (hdur : (pyNumSecs ses.DUR).isSome)
    (hstat : ∀ x, ses.STATUS ≠ PyVal.date x) :
    ∃ ses', rm_delay st ses = some ses' ∧ ses'.row = ses.row ∧ ses'.START = ses.START := by
  unfold rm_delay
  by_cases hy : pyStrLt st.cfg.year "2003".data
  · rw [if_pos hy]
    exact ⟨_, rfl, rfl, rfl⟩
  · rw [if_neg hy]
    obtain ⟨d0, hs⟩ := Option.isSome_iff_exists.mp hstart
    obtain ⟨ds, hd⟩ := Option.isSome_iff_exists.mp hdur
    rw [hs, hd]
    simp only [Option.bind_eq_bind, Option.some_bind]
    cases hsv : ses.STATUS with
    | date x => exact absurd hsv (hstat x)
    | dt t => exact ⟨_, rfl, rfl, rfl⟩
    | none => exact ⟨_, rfl, rfl, rfl⟩
    | str s2 => exact ⟨_, rfl, rfl, rfl⟩
    | int n => exact ⟨_, rfl, rfl, rfl⟩
    | float q => exact ⟨_, rfl, rfl, rfl⟩
    | time s2 => exact ⟨_, rfl, rfl, rfl⟩

/-- Well-formedness of one extracted row, sufficient for `rm_row` to not
raise: its station cells are blank or full-length; and if its DATE is usable
then DATE is a datetime, TIME a time of day, DUR numeric, STATUS not a bare
date, at least one station token has a non-blank 2- and 4-character prefix, and
every configured constraint/code field is present. -/
def RowOK (cfg : Config) (r : RawRow) : Prop :=
  (∀ cl ∈ r.stationCells.enum, ∀ v, cl.2 = some v → pyStrip v = [] ∨ 4 ≤ v.length) ∧
  (pyTruthy r.DATE = true →
    (∃ t : DT, r.DATE = PyVal.dt t) ∧
    (∃ sec : Nat, r.TIME = PyVal.time sec) ∧
    (pyNumSecs r.DUR).isSome ∧
    (∀ x : YMD, r.STATUS ≠ PyVal.date x) ∧
    (∃ v, (∃ cl ∈ r.stationCells.enum, cl.2 = some v) ∧
      pyStrip (v.take 2) ≠ [] ∧ pyStrip (v.take 4) ≠ []) ∧
    (∀ c ∈ cfg.constrains, (sesField (rawSession r) c.1).isSome) ∧
    (∀ ci ∈ cfg.valid_codes, ci.1 ≠ "STATUS".data → ci.1 ≠ "DBC".data →
      (sesField (rawSession r) ci.1).isSome))

/-- One well-formed row is processed without raising: a usable-DATE row is
validated, derived and appended; a row without DATE is skipped; errors
accumulate either way. -/
theorem rm_row_ok (acc : VState × List Session) (r : RawRow)
    (hok : RowOK acc.1.cfg r)
    (htbl : (acc.1.cfg.valid_codes.find? (fun p => decide (p.1 = "STATUS".data))).isSome) :
    ∃ st' sessions', rm_row acc r = some (st', sessions') ∧ ErrAccum acc.1 st' ∧
      (pyTruthy r.DATE = true →
        ∃ s, sessions' = acc.2 ++ [s] ∧ s.row = r.row ∧ s.START.isSome) ∧
      (pyTruthy r.DATE = false → sessions' = acc.2) := by
  obtain ⟨st1, msN, mdN, hfold, ha1, hmem⟩ := rm_stations_fold (rawSession r)
    r.stationCells.enum acc.1 [] [] hok.1
  have hstations : rm_stations acc.1 (rawSession r) r.stationCells.enum =
      some (st1, msN, mdN) := by
    unfold rm_stations
    simpa using hfold
  unfold rm_row
  dsimp only
  rw [hstations]
  simp only [Option.bind_eq_bind, Option.some_bind]
  by_cases hdate : pyTruthy r.DATE
  · rw [if_neg (not_not_intro hdate)]
    obtain ⟨⟨t, ht⟩, ⟨sec, htm⟩, hdur, hstnd, ⟨v, hvcell, hv2, hv4⟩, hconstr, hcodes⟩ :=
      hok.2 hdate
    obtain ⟨st2, ses2, hvs, ha2, hrow2, hstart2, hdur2, hstat2⟩ :=
      validate_session_ok st1 (rawSession r) msN t sec ht htm hstnd
        (by rw [ha1.1]; exact hconstr)
        (by rw [ha1.1]; exact hcodes)
        (by rw [ha1.1]; exact htbl)
    have hnb : pyStrip v ≠ [] := by
      intro hall
      exact hv2 (pyStrip_eq_nil_of_all (fun c hc =>
        pyStrip_eq_nil hall c (List.mem_of_mem_take hc)))
    obtain ⟨hmss, hmds⟩ := hmem v hvcell hnb
    have hm2 : (format_list msN 2).isSome := format_list_isSome ⟨v.take 2, hmss, by
      rw [List.take_take]
      simpa using hv2⟩
    have hm4 : (format_list mdN 4).isSome := format_list_isSome ⟨v, hmds, hv4⟩
    obtain ⟨m, hmEq⟩ := Option.isSome_iff_exists.mp hm2
    obtain ⟨md4, hmdEq⟩ := Option.isSome_iff_exists.mp hm4
    rw [hvs]
    simp only [Option.bind_eq_bind, Option.some_bind]
    rw [hmEq]
    simp only [Option.bind_eq_bind, Option.some_bind]
    rw [hmdEq]
    simp only [Option.bind_eq_bind, Option.some_bind]
    obtain ⟨ses4, hdel, hrow4, hstart4⟩ := rm_delay_ok st2
      { ses2 with master := some m, media := some md4 }
      (by show ses2.START.isSome; rw [hstart2]; rfl)
      (by show (pyNumSecs ses2.DUR).isSome; rw [hdur2]; exact hdur)
      (fun x => hstat2 x)
    rw [hdel]
    simp only [Option.bind_eq_bind, Option.some_bind]
    refine ⟨st2, acc.2 ++ [ses4], rfl, errAccum_trans ha1 ha2, ?_, ?_⟩
    · intro _
      refine ⟨ses4, rfl, ?_, ?_⟩
      · rw [hrow4]
        show ses2.row = _
        rw [hrow2]
        rfl
      · rw [hstart4]
        show ses2.START.isSome
        rw [hstart2]
        rfl
    · intro hfalse
      rw [hfalse] at hdate
      cases hdate
  · rw [if_pos (by simpa using hdate)]
    refine ⟨st1, acc.2, rfl, ha1, ?_, fun _ => rfl⟩
    intro htrue
    exact absurd htrue hdate

/-- All rows of a sheet are processed: each usable-DATE row contributes exactly
one session (found by its row number), errors accumulate across rows, and
every kept session has a derived START. -/
theorem rm_rows_fold (rows : List RawRow) :
    ∀ (st : VState) (sessions0 : List Session),
      (∀ r ∈ rows, RowOK st.cfg r) →
      (st.cfg.valid_codes.find? (fun p => decide (p.1 = "STATUS".data))).isSome →
      ∃ st' sessionsN,
        rows.foldlM rm_row (st, sessions0) = some (st', sessions0 ++ sessionsN) ∧
        ErrAccum st st' ∧
        sessionsN.length = (rows.filter (fun r => pyTruthy r.DATE)).length ∧
        (∀ r ∈ rows, pyTruthy r.DATE = true → ∃ s ∈ sessionsN, s.row = r.row) ∧
        (∀ s ∈ sessionsN, s.START.isSome) := by
  induction rows with
  | nil =>
    intro st sessions0 _ _
    exact ⟨st, [], by simp, errAccum_refl st, by simp, by simp, by simp⟩
  | cons r rows ih =>
    intro st sessions0 hok htbl
    obtain ⟨st1, sessions1, hrow, ha1, hkeep, hskip⟩ := rm_row_ok (st, sessions0) r
      (hok r (List.mem_cons_self r rows)) htbl
    by_cases hdate : pyTruthy r.DATE
    · obtain ⟨s, hs1, hsrow, hsstart⟩ := hkeep hdate
      subst hs1
      obtain ⟨st', sN, hfold, ha2, hlen, hmem, hstart⟩ := ih st1 (sessions0 ++ [s])
        (fun r2 hr2 => by rw [ha1.1]; exact hok r2 (List.mem_cons_of_mem r hr2))
        (by rw [ha1.1]; exact htbl)
      refine ⟨st', s :: sN, ?_, errAccum_trans ha1 ha2, ?_, ?_, ?_⟩
      · rw [List.foldlM_cons, hrow]
        simp only [Option.bind_eq_bind, Option.some_bind]
        rw [hfold, List.append_assoc]
        rfl
      · simp [List.filter_cons, hdate, hlen]
      · intro r2 hr2 hd2
        rcases List.mem_cons.mp hr2 with rfl | hr2
        · exact ⟨s, List.mem_cons_self s sN, hsrow⟩
        · obtain ⟨s2, hs2, hs2row⟩ := hmem r2 hr2 hd2
          exact ⟨s2, List.mem_cons_of_mem s hs2, hs2row⟩
      · intro s2 hs2
        rcases List.mem_cons.mp hs2 with rfl | hs2
        · exact hsstart
        · exact hstart s2 hs2
    · have hfalse : pyTruthy r.DATE = false := by simpa using hdate
      rw [hskip hfalse] at hrow
      obtain ⟨st', sN, hfold, ha2, hlen, hmem, hstart⟩ := ih st1 sessions0
        (fun r2 hr2 => by rw [ha1.1]; exact hok r2 (List.mem_cons_of_mem r hr2))
        (by rw [ha1.1]; exact htbl)
      refine ⟨st', sN, ?_, errAccum_trans ha1 ha2, ?_, ?_, hstart⟩
      · rw [List.foldlM_cons, hrow]
        simp only [Option.bind_eq_bind, Option.some_bind]
        exact hfold
      · simp [List.filter_cons, hfalse, hlen]
      · intro r2 hr2 hd2
        rcases List.mem_cons.mp hr2 with rfl | hr2
        · rw [hfalse] at hd2; cases hd2
        · exact hmem r2 hr2 hd2

/-- C7, amended: for a sheet whose extracted rows are all well-formed in the
sense of `RowOK` (valid DATE/TIME for usable rows, numeric DUR, no bare-date
STATUS, a non-blank station token, all configured fields present) and a
configuration carrying a STATUS code table, `read_master` never halts:
every data row with a usable DATE is validated, derived and kept in the final
session list (located by its source row), rows without a usable DATE are
skipped, errors from all rows are accumulated into one report (messages only
grow), and the file-level has-errors flag ends up set exactly when it was
already set or some accumulated error was not downgraded by debug mode. -/
theorem read_master_correct (st : VState) (rows : List RawRow)
    (hrows : ∀ r ∈ rows, RowOK st.cfg r)
    (htbl : (st.cfg.valid_codes.find? (fun p => decide (p.1 = "STATUS".data))).isSome) :
    ∃ st' sessions, read_master st rows = some (st', sessions) ∧ st'.cfg = st.cfg ∧
      sessions.length = (rows.filter (fun r => pyTruthy r.DATE)).length ∧
      (∀ r ∈ rows, pyTruthy r.DATE = true → ∃ s ∈ sessions, s.row = r.row) ∧
      (∃ new, st'.messages = st.messages ++ new ∧
        (st'.has_errors = true ↔ (st.has_errors = true ∨ ∃ m ∈ new, m.downgraded = false))) := by
  obtain ⟨st', sN, hfold, ha, hlen, hmem, hstart⟩ := rm_rows_fold rows st [] hrows htbl
  have hsort : sort_sessions sN =
      some (pySorted (fun a b => dtLe (startKey a) (startKey b)) sN) := by
    unfold sort_sessions
    rw [if_pos (List.all_eq_true.mpr (fun s hs => hstart s hs))]
  refine ⟨st', pySorted (fun a b => dtLe (startKey a) (startKey b)) sN, ?_, ha.1, ?_, ?_, ha.2⟩
  · unfold read_master
    rw [show rows.foldlM rm_row (st, ([] : List Session)) = some (st', sN) from by
      simpa using hfold]
    simp only [Option.bind_eq_bind, Option.some_bind]
    rw [hsort]
    rfl
  · rw [(pySorted_perm _ sN).length_eq]
    exact hlen
  · intro r hr hd
    obtain ⟨s, hs, hsrow⟩ := hmem r hr hd
    exact ⟨s, mem_pySorted.mpr hs, hsrow⟩

/-- Witness for `read_master_correct` on a concrete well-formed one-row sheet. -/
theorem read_master_correct_witness :
    ∃ st' sessions, read_master st0 [rowGood] = some (st', sessions) ∧ st'.cfg = st0.cfg ∧
      sessions.length = ([rowGood].filter (fun r => pyTruthy r.DATE)).length ∧
      (∀ r ∈ [rowGood], pyTruthy r.DATE = true → ∃ s ∈ sessions, s.row = r.row) ∧
      (∃ new, st'.messages = st0.messages ++ new ∧
        (st'.has_errors = true ↔ (st0.has_errors = true ∨ ∃ m ∈ new, m.downgraded = false))) :=
  read_master_correct st0 [rowGood]
    (by
      intro r hr
      rw [List.mem_singleton] at hr
      subst hr
      refine ⟨?_, ?_⟩
      · rintro cl hcl v hv
        rw [show rowGood.stationCells.enum = [(0, some "Wz1G".data)] from rfl] at hcl
        rw [List.mem_singleton] at hcl
        subst hcl
        injection hv with hv
        subst hv
        decide
      · intro _
        refine ⟨⟨⟨⟨2024, 1, 2⟩, 0⟩, rfl⟩, ⟨3600, rfl⟩, by decide, ?_, ?_, ?_, ?_⟩
        · intro x h
          cases h
        · exact ⟨"Wz1G".data, ⟨(0, some "Wz1G".data), by decide, rfl⟩, by decide, by decide⟩
        · intro c hc
          rw [show st0.cfg.constrains = [] from rfl] at hc
          cases hc
        · intro ci hci h1 _
          rw [show st0.cfg.valid_codes = [("STATUS".data, ["Wt_med".data])] from rfl] at hci
          rw [List.mem_singleton] at hci
          subst hci
          exact absurd rfl h1)
    (by decide)

/-! ### Notes paragraph wrapping (notes.py:93-149) -/

/-- Worker for `pyReplace` (fuel dominates the length; our patterns are
non-empty, so the fuel never runs out on the call paths used). -/
def replaceAllF (pat rep : List Char) : Nat → List Char → List Char
  | 0, l => l
  | _ + 1, [] => []
  | fuel + 1, c :: cs =>
    if (c :: cs).take pat.length = pat then
      rep ++ replaceAllF pat rep fuel ((c :: cs).drop pat.length)
    else c :: replaceAllF pat rep fuel cs

/-- Python `str.replace(pat, rep)`: replace every leftmost non-overlapping
occurrence, never rescanning the replacement text. -/
def pyReplace (pat rep l : List Char) : List Char := replaceAllF pat rep l.length l

/-- Worker for `clean_punctuation`; every iteration that changes the text
strictly shortens it, so `length` fuel suffices. -/
def cleanPunctF : Nat → List Char → List Char
  | 0, l => l
  | fuel + 1, l =>
    let text := pyReplace ",  ".data ", ".data (pyReplace ".  ".data ". ".data l)
    if text = l then l else cleanPunctF fuel text

/-- `Notes.clean_punctuation` (notes.py:142-149):
`line.replace('.  ', '. ').replace(',  ', ', ')` to a fixed point. -/
def clean_punctuation (l : List Char) : List Char := cleanPunctF l.length l

/-- `re.match(r'^[A-Z]\s-\s', line)` as a Boolean. -/
def matchesLetterItem (l : List Char) : Bool :=
  match l with
  | a :: w1 :: h :: w2 :: _ =>
    ('A' ≤ a && a ≤ 'Z') && pyIsSpace w1 && h = '-' && pyIsSpace w2
  | _ => false

/-- `re.match(r'^[1-9]\.\s', line)` as a Boolean. -/
def matchesNumberItem (l : List Char) : Bool :=
  match l with
  | a :: d :: w :: _ => ('1' ≤ a && a ≤ '9') && d = '.' && pyIsSpace w
  | _ => false

/-- `' '.join(words)`. -/
def joinWords (ws : List (List Char)) : List Char := List.intercalate " ".data ws

/-- `Notes.same_paragraph` (notes.py:124-140): a line starting a lettered or
numbered list item stands alone; otherwise the line is punctuation-cleaned and
is a continuation exactly when it is already whitespace-normalized. -/
def same_paragraph (line : List Char) : Bool × List Char :=
  if matchesLetterItem line then (false, line)
  else if matchesNumberItem line then (false, line)
  else
    let l := clean_punctuation line
    let text := joinWords (pySplit l)
    if text = l then (true, l) else (false, l)

/-- `text[:maxLen].rfind(' ')`: index of the last blank, if any. -/
def rfindSpaceAux : List Char → Nat → Option Nat → Option Nat
  | [], _, acc => acc
  | c :: cs, i, acc => rfindSpaceAux cs (i + 1) (if c = ' ' then some i else acc)

def rfindSpace (l : List Char) : Option Nat := rfindSpaceAux l 0 Option.none

/-- Worker for `split_comments` (fuel dominates; each recursion strictly
shortens the text when `maxLen ≥ 1`). -/
def splitCommentsF (maxLen : Nat) : Nat → List Char → List (List Char)
  | 0, _ => []
  | fuel + 1, text =>
    if text.length ≤ maxLen then [text]
    else
      match rfindSpace (text.take maxLen) with
      | some i =>
        pyStrip (text.take i) :: splitCommentsF maxLen fuel (pyStrip (text.drop i))
      | Option.none =>
        -- rfind returned -1: text[:-1] and text[-1:]
        pyStrip (text.take (text.length - 1)) ::
          splitCommentsF maxLen fuel (pyStrip (text.drop (text.length - 1)))

/-- `Notes.split_comments` (notes.py:113-122): greedily break the text at the
last blank within the first `maxLen` characters and recurse on the stripped
remainder; a text short enough is returned whole. -/
def split_comments (maxLen : Nat) (text : List Char) : List (List Char) :=
  splitCommentsF maxLen (text.length + 1) text

/-- The accumulator loop of `Notes.build_text_paragraph` (notes.py:99-111):
`comment` collects continuation lines, flushed through `split_comments` at each
standalone line and at the end. -/
def btpGo (maxLen : Nat) (comment comments : List (List Char)) :
    List (List Char) → List (List Char)
  | [] => comments ++ (if comment = [] then [] else split_comments maxLen (joinWords comment))
  | l :: rest =>
    let ok := same_paragraph l
    if ok.1 then btpGo maxLen (comment ++ [ok.2]) comments rest
    else btpGo maxLen []
      (comments ++ (if comment = [] then [] else split_comments maxLen (joinWords comment))
        ++ [ok.2]) rest

/-- `Notes.build_text_paragraph` (notes.py:93-111). -/
def build_text_paragraph (maxLen : Nat) (lines : List (List Char)) : List (List Char) :=
  btpGo maxLen [] [] lines

/-- C8, counterexample to the claim as stated: the two lines `"hello"` and
`"world"` are each far below the width limit, yet re-wrapping merges them into
one line — `build_text_paragraph` is not idempotent on already-wrapped lines. -/
theorem build_text_paragraph_counterexample :
    build_text_paragraph 80 ["hello".data, "world".data] = ["hello world".data] ∧
    ("hello".data : List Char).length ≤ 80 ∧ ("world".data : List Char).length ≤ 80 ∧
    build_text_paragraph 80 ["hello".data, "world".data] ≠ ["hello".data, "world".data] := by
  refine ⟨?_, ?_, ?_, ?_⟩ <;> decide

theorem pySplitF_word_ne_nil : ∀ (fuel : Nat) (l : List Char),
    ∀ w ∈ pySplitF fuel l, w ≠ [] := by
  intro fuel
  induction fuel with
  | zero => intro l w hw; simp [pySplitF] at hw
  | succ fuel ih =>
    intro l w hw
    cases l with
    | nil => simp [pySplitF] at hw
    | cons c cs =>
      rw [pySplitF] at hw
      by_cases hsp : pyIsSpace c
      · rw [if_pos hsp] at hw
        exact ih cs w hw
      · rw [if_neg hsp] at hw
        rcases List.mem_cons.mp hw with h | h
        · subst h; simp
        · exact ih _ w h

theorem pySplit_word_ne_nil {l : List Char} : ∀ w ∈ pySplit l, w ≠ [] :=
  pySplitF_word_ne_nil l.length l

theorem chain'_noDS_of_no_space {l : List Char} (h : ∀ c ∈ l, ¬ pyIsSpace c) :
    List.Chain' (fun a b : Char => ¬(a = ' ' ∧ b = ' ')) l := by
  induction l with
  | nil => exact List.chain'_nil
  | cons a t ih =>
    cases t with
    | nil => simp
    | cons b t2 =>
      rw [List.chain'_cons]
      refine ⟨?_, ih (fun c hc => h c (List.mem_cons_of_mem a hc))⟩
      rintro ⟨rfl, -⟩
      exact h ' ' (List.mem_cons_self _ _) (by decide)

theorem joinWords_singleton (w : List Char) : joinWords [w] = w := by
  simp [joinWords, List.intercalate]

theorem joinWords_cons_cons (w w2 : List Char) (ws : List (List Char)) :
    joinWords (w :: w2 :: ws) = w ++ ' ' :: joinWords (w2 :: ws) := by
  simp [joinWords, List.intercalate, List.intersperse_cons_cons]

theorem noDS_joinWords : ∀ (ws : List (List Char)),
    (∀ w ∈ ws, w ≠ [] ∧ ∀ c ∈ w, ¬ pyIsSpace c) →
    List.Chain' (fun a b : Char => ¬(a = ' ' ∧ b = ' ')) (joinWords ws) ∧
    (∀ c, (joinWords ws).head? = some c → ¬ pyIsSpace c) := by
  intro ws
  induction ws with
  | nil =>
    intro _
    exact ⟨List.chain'_nil, by intro c hc; simp [joinWords, List.intercalate] at hc⟩
  | cons w ws ih =>
    intro h
    obtain ⟨hwne, hwns⟩ := h w (List.mem_cons_self _ _)
    cases ws with
    | nil =>
      rw [joinWords_singleton]
      refine ⟨chain'_noDS_of_no_space hwns, ?_⟩
      intro c hc
      exact hwns c (List.mem_of_mem_head? hc)
    | cons w2 ws2 =>
      have ih2 := ih (fun x hx => h x (List.mem_cons_of_mem w hx))
      rw [joinWords_cons_cons]
      have hhead2 : ∀ c, (joinWords (w2 :: ws2)).head? = some c → ¬ pyIsSpace c := ih2.2
      constructor
      · rw [List.chain'_append]
        refine ⟨chain'_noDS_of_no_space hwns, ?_, ?_⟩
        · rw [List.chain'_cons']
          refine ⟨?_, ih2.1⟩
          intro y hy
          rintro ⟨-, rfl⟩
          exact hhead2 ' ' hy (by decide)
        · intro x hx y hy
          have hxw : x ∈ w := List.mem_of_mem_getLast? hx
          rintro ⟨rfl, -⟩
          exact hwns ' ' hxw (by decide)
      · intro c hc
        cases w with
        | nil => exact absurd rfl hwne
        | cons a t =>
          simp only [List.cons_append, List.head?_cons, Option.some.injEq] at hc
          rw [← hc]
          exact hwns a (List.mem_cons_self _ _)

theorem replaceAllF_id (x : Char) (rep : List Char) :
    ∀ (fuel : Nat) (l : List Char),
      List.Chain' (fun a b : Char => ¬(a = ' ' ∧ b = ' ')) l →
      replaceAllF [x, ' ', ' '] rep fuel l = l := by
  intro fuel
  induction fuel with
  | zero => intro l _; rfl
  | succ fuel ih =>
    intro l hch
    cases l with
    | nil => rfl
    | cons c cs =>
      rw [replaceAllF]
      have hne : ¬ ((c :: cs).take ([x, ' ', ' '] : List Char).length = [x, ' ', ' ']) := by
        intro he
        cases cs with
        | nil => simp at he
        | cons c1 cs1 =>
          cases cs1 with
          | nil => simp at he
          | cons c2 cs2 =>
            simp only [List.length_cons, List.length_nil, List.take_succ_cons,
              List.take_zero, List.cons.injEq, and_true] at he
            obtain ⟨-, h1, h2⟩ := he
            have := (List.chain'_cons.mp (List.Chain'.tail hch)).1
            exact this ⟨h1, h2⟩
      rw [if_neg hne]
      have hch' : List.Chain' (fun a b : Char => ¬(a = ' ' ∧ b = ' ')) cs :=
        List.Chain'.tail hch
      rw [ih cs hch']

theorem clean_punctuation_id {l : List Char}
    (h : List.Chain' (fun a b : Char => ¬(a = ' ' ∧ b = ' ')) l) :
    clean_punctuation l = l := by
  unfold clean_punctuation
  cases hl : l.length with
  | zero => rfl
  | succ n =>
    rw [cleanPunctF]
    have h1 : pyReplace ".  ".data ". ".data l = l := by
      unfold pyReplace
      exact replaceAllF_id '.' _ l.length l h
    have h2 : pyReplace ",  ".data ", ".data l = l := by
      unfold pyReplace
      exact replaceAllF_id ',' _ l.length l h
    simp [h1, h2]

theorem normalized_clean_punctuation {line : List Char}
    (hnorm : joinWords (pySplit line) = line) : clean_punctuation line = line := by
  have h := noDS_joinWords (pySplit line)
    (fun w hw => ⟨pySplit_word_ne_nil w hw, pySplit_no_space w hw⟩)
  rw [hnorm] at h
  exact clean_punctuation_id h.1

theorem same_paragraph_normalized {line : List Char}
    (h1 : matchesLetterItem line = false) (h2 : matchesNumberItem line = false)
    (hnorm : joinWords (pySplit line) = line) :
    same_paragraph line = (true, line) := by
  unfold same_paragraph
  rw [h1, h2]
  simp only [Bool.false_eq_true, if_false]
  rw [normalized_clean_punctuation hnorm, hnorm, if_pos rfl]

theorem split_comments_short {maxLen : Nat} {text : List Char}
    (h : text.length ≤ maxLen) : split_comments maxLen text = [text] := by
  unfold split_comments
  rw [splitCommentsF, if_pos h]

theorem same_paragraph_marker {l : List Char}
    (h : matchesLetterItem l = true ∨ matchesNumberItem l = true) :
    same_paragraph l = (false, l) := by
  unfold same_paragraph
  rcases h with h | h
  · rw [h]
    simp
  · by_cases h1 : matchesLetterItem l
    · rw [h1]
      simp
    · simp only [h1, Bool.false_eq_true, if_false, h, if_true]

theorem btpGo_markers (maxLen : Nat) : ∀ (lines acc : List (List Char)),
    (∀ l ∈ lines, matchesLetterItem l = true ∨ matchesNumberItem l = true) →
    btpGo maxLen [] acc lines = acc ++ lines := by
  intro lines
  induction lines with
  | nil => intro acc _; simp [btpGo]
  | cons l rest ih =>
    intro acc h
    rw [btpGo]
    rw [same_paragraph_marker (h l (List.mem_cons_self _ _))]
    simp only [Bool.false_eq_true, if_false, eq_self_iff_true, if_true, ite_true,
      List.append_nil]
    rw [ih (acc ++ [l]) (fun x hx => h x (List.mem_cons_of_mem l hx))]
    simp

/-- C8, amended: re-wrapping is the identity in the two cases where no merging
can occur — (a) a single already-normalized non-item line within the width
limit is returned unchanged, and (b) a list made entirely of lettered/numbered
item lines is returned unchanged.  (The claim as stated — idempotence on any
list of short enough lines — fails because consecutive short continuation
lines are merged; see the counterexample.) -/
theorem build_text_paragraph_correct :
    (∀ (maxLen : Nat) (line : List Char),
      matchesLetterItem line = false → matchesNumberItem line = false →
      joinWords (pySplit line) = line → line.length ≤ maxLen →
      build_text_paragraph maxLen [line] = [line]) ∧
    (∀ (maxLen : Nat) (lines : List (List Char)),
      (∀ l ∈ lines, matchesLetterItem l = true ∨ matchesNumberItem l = true) →
      build_text_paragraph maxLen lines = lines) := by
  constructor
  · intro maxLen line h1 h2 hnorm hlen
    unfold build_text_paragraph
    rw [btpGo, same_paragraph_normalized h1 h2 hnorm]
    simp only [if_pos rfl, List.nil_append]
    rw [btpGo]
    have hne : ¬ (([line] : List (List Char)) = []) := by simp
    rw [if_neg hne, joinWords_singleton, split_comments_short hlen]
    simp
  · intro maxLen lines h
    exact btpGo_markers maxLen lines [] h

/-- C8 witness: part (a) at the line "hello" with width 80; part (b) at the
item lines "A - x" and "1. y". -/
theorem build_text_paragraph_correct_witness :
    build_text_paragraph 80 ["hello".data] = ["hello".data] ∧
    build_text_paragraph 80 ["A - x".data, "1. y".data] =
      ["A - x".data, "1. y".data] := by
  constructor
  · exact build_text_paragraph_correct.1 80 "hello".data (by decide) (by decide)
      (by decide) (by decide)
  · exact build_text_paragraph_correct.2 80 ["A - x".data, "1. y".data]
      (by decide)

/-! ### Field formatting: the master-file writer (master.py:100-126) versus the
HTML mail writer (reqsched.py:304-328) -/

/-- Python `str.upper()` (the formats render ASCII). -/
def pyUpper (l : List Char) : List Char := l.map Char.toUpper

/-- Month abbreviations of `%b` in the C locale. -/
def monthAbbrev : Nat → List Char
  | 1 => "Jan".data
  | 2 => "Feb".data
  | 3 => "Mar".data
  | 4 => "Apr".data
  | 5 => "May".data
  | 6 => "Jun".data
  | 7 => "Jul".data
  | 8 => "Aug".data
  | 9 => "Sep".data
  | 10 => "Oct".data
  | 11 => "Nov".data
  | 12 => "Dec".data
  | _ => "???".data

/-- Zero-pad a rendered day-of-year to three digits (`%j`). -/
def pad3 (n : Int) : List Char :=
  List.replicate (3 - (toString n).length) '0' ++ (toString n).data

/-- One `%` directive of `strftime` over a naive datetime; a directive outside
the modelled subset yields `Option.none` (refused rather than mis-rendered). -/
def strfDir (t : DT) : Char → Option (List Char)
  | 'Y' => some (pad4 t.date.year)
  | 'y' => some (pad2 (Int.toNat (t.date.year % 100)))
  | 'm' => some (pad2 t.date.month)
  | 'd' => some (pad2 t.date.day)
  | 'b' => some (monthAbbrev t.date.month)
  | 'j' => some (pad3 (doyOf t.date))
  | 'H' => some (pad2 (t.secs / 3600))
  | 'M' => some (pad2 (t.secs % 3600 / 60))
  | 'S' => some (pad2 (t.secs % 60))
  | '%' => some "%".data
  | _ => Option.none

/-- `value.strftime(fmt)` over a naive datetime. -/
def strftime (t : DT) : List Char → Option (List Char)
  | [] => some []
  | '%' :: c :: rest =>
    (strfDir t c).bind fun piece => (strftime t rest).map fun tail => piece ++ tail
  | ['%'] => Option.none
  | c :: rest => (strftime t rest).map fun l => c :: l

/-- The value a `.strftime` call sees: datetimes as they are, plain dates at
midnight, plain times on `time.strftime`'s 1900-01-01 placeholder date; any
other value has no `strftime` attribute. -/
def dtOfVal : PyVal → Option DT
  | PyVal.dt t => some t
  | PyVal.date d => some ⟨d, 0⟩
  | PyVal.time s => some ⟨⟨1900, 1, 1⟩, s⟩
  | _ => Option.none

/-- `isinstance(value, (int, float))`. -/
def isNum : PyVal → Bool
  | PyVal.int _ => true
  | PyVal.float _ => true
  | _ => false

/-- The exact rational a numeric cell value denotes (`divmod` operand). -/
def ratOfNum : PyVal → Option ℚ
  | PyVal.int n => some (n : ℚ)
  | PyVal.float q => some q
  | _ => Option.none

/-- Digits of a token read as a decimal number (`int(token)`). -/
def natOfDigits : List Char → Nat :=
  List.foldl (fun acc c => acc * 10 + (c.toNat - 48)) 0

/-- Python `format(value, spec)` for the spec grammar this program uses,
`[<|>]? digits ('s'|'d')?`: strings left-justify by default, integers
right-justify by default, a type/value mismatch is a ValueError, and any spec
outside the modelled fragment is refused as `Option.none`. -/
def pyFormat (v : PyVal) (spec : List Char) : Option (List Char) :=
  let align : Option Char :=
    match spec.head? with
    | some '<' => some '<'
    | some '>' => some '>'
    | _ => Option.none
  let s1 := if align.isSome then spec.tail else spec
  let width := natOfDigits (s1.takeWhile Char.isDigit)
  let typ := s1.dropWhile Char.isDigit
  let padTo : Bool → List Char → List Char := fun left s =>
    if left then s ++ List.replicate (width - s.length) ' '
    else List.replicate (width - s.length) ' ' ++ s
  match v, typ with
  | PyVal.str s, [] => some (padTo (decide (align ≠ some '>')) s)
  | PyVal.str s, ['s'] => some (padTo (decide (align ≠ some '>')) s)
  | PyVal.int n, [] => some (padTo (decide (align = some '<')) (toString n).data)
  | PyVal.int n, ['d'] => some (padTo (decide (align = some '<')) (toString n).data)
  | _, _ => Option.none

/-- `int(re.sub(r"\D", ' ', format_spec).strip().split()[0])` (master.py:121,
reqsched.py:326): every non-digit becomes a blank, and the first remaining
token is the width; a spec without digits is an IndexError. -/
def specWidth (spec : List Char) : Option Nat :=
  match pySplit (spec.map fun c => if c.isDigit then c else ' ') with
  | [] => Option.none
  | w :: _ => some (natOfDigits w)

/-- The `H:MM` duration rendering shared by both writers (master.py:111-112,
reqsched.py:316-317): `divmod(value, 1)` then truncation of `remainder * 60`. -/
def dur_hm (value : ℚ) : List Char :=
  let hours : Int := ⌊value⌋
  let remainder : ℚ := value - hours
  (padLeft 2 (toString hours)).data ++ ":".data ++ (zfill 2 (toString ⌊remainder * 60⌋)).data

/-- The closing lines shared by both writers (master.py:125-126,
reqsched.py:327-328 before the strip): `value = ' ' if value is None else
value`, then `format(value, format_spec)`. -/
def format_value (vs : PyVal × List Char) : Option (List Char) :=
  pyFormat (if vs.1 = PyVal.none then PyVal.str " ".data else vs.1) vs.2

/-- The special-case branch ladder of `MasterFile.format_field`
(master.py:107-123), producing the adjusted (value, format_spec) pair;
`today` stands for `date.today()` in the `STATUS` branch. -/
def master_branches (today : YMD) (key : List Char) (value : PyVal)
    (format_spec : List Char) : Option (PyVal × List Char) :=
  if key = "DATE".data ∨ key = "TIME".data then
    (dtOfVal value).bind fun t => (strftime t format_spec).bind fun s =>
      some (PyVal.str (pyUpper s), [])
  else if key = "DUR".data ∧ format_spec = "%H:%M".data then
    (ratOfNum value).bind fun q =>
      some (PyVal.str (if 0 < q then dur_hm q else "     ".data), [])
  else if key = "STATUS".data then
    match value with
    | PyVal.dt t =>
      (strftime t format_spec).bind fun s => some (PyVal.str (pyUpper s), [])
    | _ =>
      (strftime ⟨today, 0⟩ format_spec).bind fun s =>
        some (value, ('<' :: (toString (pyUpper s).length).data) ++ "s".data)
  else if (key = "PF".data ∨ key = "MK4NUM".data) ∧ isNum value = false then
    (specWidth format_spec).bind fun w =>
      some (value, ('<' :: (toString w).data) ++ "s".data)
  else if key = "DELAY".data ∧ isNum value = false then
    some (value, format_spec.map fun c => if c = 'd' then 's' else c)
  else
    some (value, format_spec)

/-- `MasterFile.format_field` (master.py:100-126). -/
def master_format_field (today : YMD) (key : List Char) (value : PyVal)
    (format_spec : List Char) : Option (List Char) :=
  (master_branches today key value format_spec).bind format_value

/-- The branch ladder of `HTMLFormatter.format_field` (reqsched.py:311-326):
identical to the master writer's except that the `DUR` branch renders
unconditionally (no five-blank case for non-positive durations) and there is
no `DELAY` spec rewrite. -/
def html_branches (today : YMD) (key : List Char) (value : PyVal)
    (format_spec : List Char) : Option (PyVal × List Char) :=
  if key = "DATE".data ∨ key = "TIME".data then
    (dtOfVal value).bind fun t => (strftime t format_spec).bind fun s =>
      some (PyVal.str (pyUpper s), [])
  else if key = "DUR".data ∧ format_spec = "%H:%M".data then
    (ratOfNum value).bind fun q => some (PyVal.str (dur_hm q), [])
  else if key = "STATUS".data then
    match value with
    | PyVal.dt t =>
      (strftime t format_spec).bind fun s => some (PyVal.str (pyUpper s), [])
    | _ =>
      (strftime ⟨today, 0⟩ format_spec).bind fun s =>
        some (value, ('<' :: (toString (pyUpper s).length).data) ++ "s".data)
  else if (key = "PF".data ∨ key = "MK4NUM".data) ∧ isNum value = false then
    (specWidth format_spec).bind fun w =>
      some (value, ('<' :: (toString w).data) ++ "s".data)
  else
    some (value, format_spec)

/-- `HTMLFormatter.format_field` (reqsched.py:304-328): the branch ladder, the
shared closing lines, then `.strip()` — which removes whitespace from BOTH
ends. -/
def html_format_field (today : YMD) (key : List Char) (value : PyVal)
    (format_spec : List Char) : Option (List Char) :=
  (html_branches today key value format_spec).bind fun vs =>
    (format_value vs).map pyStrip

/-- Python `str.rstrip()`: remove trailing whitespace only (what claim C9
asserts the HTML writer does). -/
def pyStripRight (l : List Char) : List Char :=
  (l.reverse.dropWhile pyIsSpace).reverse

/-- C9, counterexample to the claim as stated: for the generic field `PI` with
value `"ab"` and right-justifying spec `">5s"`, the generic rule renders
`"   ab"`; the HTML cell is `"ab"` — the leading blanks are removed too, so
the HTML output is not the trailing-whitespace-stripped generic value. -/
theorem html_format_field_counterexample :
    master_format_field ⟨2024, 6, 1⟩ "PI".data (PyVal.str "ab".data) ">5s".data =
      some "   ab".data ∧
    html_format_field ⟨2024, 6, 1⟩ "PI".data (PyVal.str "ab".data) ">5s".data =
      some "ab".data ∧
    html_format_field ⟨2024, 6, 1⟩ "PI".data (PyVal.str "ab".data) ">5s".data ≠
      (master_format_field ⟨2024, 6, 1⟩ "PI".data (PyVal.str "ab".data) ">5s".data).map
        pyStripRight := by
  refine ⟨?_, ?_, ?_⟩ <;> decide

theorem html_branches_eq_master (today : YMD) (key : List Char) (value : PyVal)
    (format_spec : List Char)
    (hdur : ∀ q : ℚ, key = "DUR".data → format_spec = "%H:%M".data →
      ratOfNum value = some q → 0 < q)
    (hdelay : key = "DELAY".data → isNum value = true) :
    html_branches today key value format_spec =
      master_branches today key value format_spec := by
  unfold html_branches master_branches
  by_cases h1 : key = "DATE".data ∨ key = "TIME".data
  · rw [if_pos h1, if_pos h1]
  · rw [if_neg h1, if_neg h1]
    by_cases h2 : key = "DUR".data ∧ format_spec = "%H:%M".data
    · rw [if_pos h2, if_pos h2]
      cases hq : ratOfNum value with
      | none => rfl
      | some q =>
        have hpos := hdur q h2.1 h2.2 hq
        simp only [Option.some_bind, if_pos hpos]
    · rw [if_neg h2, if_neg h2]
      by_cases h3 : key = "STATUS".data
      · rw [if_pos h3, if_pos h3]
      · rw [if_neg h3, if_neg h3]
        by_cases h4 : (key = "PF".data ∨ key = "MK4NUM".data) ∧ isNum value = false
        · rw [if_pos h4, if_pos h4]
        · rw [if_neg h4, if_neg h4]
          have h5 : ¬ (key = "DELAY".data ∧ isNum value = false) := by
            rintro ⟨hk, hv⟩
            rw [hdelay hk] at hv
            exact Bool.noConfusion hv
          rw [if_neg h5]

/-- C9, amended: outside the two branches where the writers genuinely diverge
— a non-positive numeric `DUR` under the `%H:%M` spec (five blanks vs a
rendered time) and a non-numeric `DELAY` (spec rewrite `d`→`s` vs none) — the
HTML cell equals the generic per-field formatted value with whitespace
stripped from BOTH ends, not only trailing: leading blanks (e.g. of
right-justified values) are removed as well. -/
theorem html_format_field_correct (today : YMD) (key : List Char) (value : PyVal)
    (format_spec : List Char)
    (hdur : ∀ q : ℚ, key = "DUR".data → format_spec = "%H:%M".data →
      ratOfNum value = some q → 0 < q)
    (hdelay : key = "DELAY".data → isNum value = true) :
    html_format_field today key value format_spec =
      (master_format_field today key value format_spec).map pyStrip := by
  unfold html_format_field master_format_field
  rw [html_branches_eq_master today key value format_spec hdur hdelay]
  cases master_branches today key value format_spec with
  | none => rfl
  | some vs => cases format_value vs <;> rfl

/-- C9 witness: the field `SKED` with string value `"NASA"` and spec `"<6s"` —
the hypotheses hold vacuously (the key is neither `DUR` nor `DELAY`), and the
HTML cell is the both-ends-stripped generic value. -/
theorem html_format_field_correct_witness :
    html_format_field ⟨2024, 6, 1⟩ "SKED".data (PyVal.str "NASA".data) "<6s".data =
      (master_format_field ⟨2024, 6, 1⟩ "SKED".data (PyVal.str "NASA".data)
        "<6s".data).map pyStrip :=
  html_format_field_correct ⟨2024, 6, 1⟩ "SKED".data (PyVal.str "NASA".data) "<6s".data
    (fun _ hk _ _ => absurd hk (by decide)) (fun hk => absurd hk (by decide))

end Masters
